import Mathlib

/-!
Verification of the lubuntu-team/ci-tooling repository against its
natural-language specification.

The development shallowly embeds the three Python modules of the repository:

* `ci/timer_metrics.py`  — the `TimerMetrics` helper (timer start/stop state);
* `ci/lp_check.py`       — the Launchpad publication polling tool;
* `ci/jobgenerator.py`   — the metadata-driven Jenkins job reconciler.

Modelling conventions, fixed once here:

* Python dictionaries are association lists that preserve insertion order
  (`Record`); writing an existing key updates the stored value in place,
  writing a new key appends it, exactly as CPython dicts behave.
* Python values appearing in the YAML metadata are either strings or lists
  of strings (`Value`); these are the only shapes the programs touch.
* Fallible Python code is embedded in `Except PyErr`; the `PyErr`
  constructors mirror the Python exception classes that can escape
  (`ValueError`, `KeyError`, `TypeError`, `AttributeError`, `NameError`).
* `time.perf_counter` values are modelled as integers: no claim involves
  real-time arithmetic, only the control flow around the stored numbers.
* External collaborators (Jinja template rendering, the Jenkins HTTP API,
  Launchpad) are modelled at the boundary the spec fixes for them:
  template rendering is a pure constructor of the bindings it is given
  (`JobContent`), and the Jenkins server is a job/view store (`JState`)
  with the list/create/update/add operations the code calls.  View
  handles are identified with view names.
-/

/-! ## Python-side basic values and errors -/

/-- Exceptions that the embedded code can raise, mirroring the Python
exception classes that actually escape in the source. -/
inductive PyErr where
  | valueError (msg : String)
  | keyError (key : String)
  | typeError (msg : String)
  | attributeError (msg : String)
  | nameError (missing : String)
  deriving DecidableEq, Repr

/-- A YAML-derived Python value: the metadata files only ever hold strings
and lists of strings in the fields the programs read. -/
inductive Value where
  | str (s : String)
  | strList (l : List String)
  deriving DecidableEq, Repr

/-- A Python dict from string keys to values, as an insertion-ordered
association list (CPython dicts preserve insertion order). -/
abbrev Record := List (String × Value)

/-- Dict lookup: first (and in well-formed records only) binding wins. -/
def recLookup : Record → String → Option Value
  | [], _ => none
  | (k, v) :: r, key => if k = key then some v else recLookup r key

/-- `d[key]` — raises `KeyError` when the key is absent. -/
def item (r : Record) (k : String) : Except PyErr Value :=
  match recLookup r k with
  | some v => .ok v
  | none => .error (.keyError k)

/-- `key in d`. -/
def hasKey (r : Record) (k : String) : Bool :=
  r.any (fun p => p.1 = k)

/-- `d[key] = v`: update in place when present (position kept), append
when absent — CPython dict assignment. -/
def recordSet (r : Record) (k : String) (v : Value) : Record :=
  if hasKey r k then r.map (fun p => (p.1, if p.1 = k then v else p.2))
  else r ++ [(k, v)]

/-! ## String helpers (Python `in` and `str.replace` on our values)

`containsSubL` is substring containment; `replaceAllL` is Python's
left-to-right non-overlapping `str.replace`.  The only pattern the code
ever substitutes is the literal `"NAME"`, which is non-empty; for an
empty pattern `replaceAllL` acts as the identity (Python differs there,
but the embedded program never calls it that way). -/

/-- Substring test on character lists. -/
def containsSubL (pat : List Char) : List Char → Bool
  | [] => pat.isEmpty
  | c :: rest => pat.isPrefixOf (c :: rest) || containsSubL pat rest

/-- Python `haystack.replace(pat, rep)` for a non-empty `pat`:
left-to-right, non-overlapping. -/
def replaceAllL (pat rep : List Char) : List Char → List Char
  | [] => []
  | c :: rest =>
    if pat.isEmpty then c :: rest
    else if pat.isPrefixOf (c :: rest) then
      rep ++ replaceAllL pat rep (rest.drop (pat.length - 1))
    else
      c :: replaceAllL pat rep rest
termination_by l => l.length
decreasing_by
  · simp only [List.length_cons, List.length_drop]
    omega
  · simp only [List.length_cons]
    omega

/-- `pat in s` for strings. -/
def strContains (s pat : String) : Bool :=
  containsSubL pat.toList s.toList

/-- `s.startswith(pre)`. -/
def strStartsWith (s pre : String) : Bool :=
  pre.toList.isPrefixOf s.toList

/-- `s.replace(pat, rep)` for strings, with Python semantics for the
non-empty patterns the program uses. -/
def strReplaceAll (s pat rep : String) : String :=
  ⟨replaceAllL pat.toList rep.toList s.toList⟩

/-! ## `ci/timer_metrics.py` — `TimerMetrics` state -/

/-- One entry of `TimerMetrics.data`: the dict
`{"running": …, "start_time": …, "total_time": …}`. -/
structure TimerEntry where
  running : Bool
  startTime : Int
  totalTime : Int
  deriving DecidableEq, Repr

/-- `TimerMetrics.data`: timer name ↦ entry, insertion ordered. -/
abbrev TimerData := List (String × TimerEntry)

/-- Lookup in `TimerMetrics.data`. -/
def tLookup : TimerData → String → Option TimerEntry
  | [], _ => none
  | (k, e) :: r, key => if k = key then some e else tLookup r key

/-- Replace the entry stored under `name` (the name is present when the
code calls this). -/
def tUpdate (d : TimerData) (name : String) (e : TimerEntry) : TimerData :=
  d.map (fun p => (p.1, if p.1 = name then e else p.2))

/-- `TimerMetrics.start(name)` at clock value `tVal`:
absent → fresh running entry; present and stopped → restart;
present and running → no-op. -/
def timerStart (tVal : Int) (name : String) (d : TimerData) : TimerData :=
  match tLookup d name with
  | none => d ++ [(name, ⟨true, tVal, 0⟩)]
  | some e =>
    if e.running = false then
      tUpdate d name ⟨true, tVal, e.totalTime⟩
    else d

/-- `TimerMetrics.stop(name)` at clock value `tVal`.

The source guards the missing-name case with
`assert ValueError("Timer " + name + " not found")`: it asserts a freshly
constructed exception *object*, which is always truthy, so the assert
never fires and execution falls through to `self.data[name]["running"]`,
which raises `KeyError` for a missing name.  The embedding therefore has
no effect for that line and reaches the lookup directly. -/
def timerStop (tVal : Int) (name : String) (d : TimerData) :
    Except PyErr TimerData :=
  match tLookup d name with
  | none => .error (.keyError name)
  | some e =>
    if e.running then
      .ok (tUpdate d name ⟨false, e.startTime, e.totalTime + (tVal - e.startTime)⟩)
    else .ok d

/-! ## `ci/lp_check.py` — Launchpad publication polling

The Launchpad API is the external input: each polling iteration observes
either an `IndexError` from the remote collection (caught by the
`try/except IndexError` in the source) or the lists of build states and
published-binary statuses.  `verify_source_published` observes one source
status per iteration; the anonymous login, the PPA lookup, and the
`getPublishedSources(...)[0]` access are the external boundary (their
own failures are raises before the loops modelled here). -/

/-- One iteration's observation of `ppa.getBuilds()` /
`ppa.getPublishedBinaries()`. -/
inductive Poll where
  | indexError
  | data (builds : List String) (binaries : List String)

/-- The build-state loop of `verify_binaries_published` (source lines
88–99): accumulate `need_sleep`, raise on a failed build. -/
def checkBuildsLoop : List String → Bool → Except PyErr Bool
  | [], ns => .ok ns
  | b :: rest, ns =>
    if b = "Needs building" ∨ b = "Currently building" ∨ b = "Uploading build" then
      checkBuildsLoop rest true
    else if b = "Successfully built" then
      checkBuildsLoop rest ns
    else
      .error (.valueError "One or more builds have an error")

/-- The published-binaries loop (source lines 102–109).  Both the
`"Pending"` and the `"Published"` branches execute
`print(binary_package_name, …)` where `binary_package_name` is an
undefined name, so any non-empty binaries list raises: `NameError` for
those two statuses (before `need_sleep` is touched), `ValueError`
otherwise. -/
def checkBinariesLoop : List String → Bool → Except PyErr Bool
  | [], ns => .ok ns
  | st :: _, _ =>
    if st = "Pending" then .error (.nameError "binary_package_name")
    else if st = "Published" then .error (.nameError "binary_package_name")
    else .error (.valueError "One or more builds can't publish")

/-- One iteration of the binaries polling loop: `need_sleep` as the
result; an `IndexError` anywhere in the `try` block is caught and sets
`need_sleep` (modelled as the whole observation being the error). -/
def binariesIteration (p : Poll) : Except PyErr Bool :=
  match p with
  | .indexError => .ok true
  | .data builds binaries => do
    let ns ← checkBuildsLoop builds false
    checkBinariesLoop binaries ns

/-- The `for i in range(0, 24)` loop of `verify_binaries_published`:
stop via `break` when an iteration ends with `need_sleep` false, or run
out of iterations; either way control continues after the loop. -/
def runBinLoop (polls : Nat → Poll) : Nat → Nat → Except PyErr Unit
  | _, 0 => .ok ()
  | i, fuel + 1 => do
    let ns ← binariesIteration (polls i)
    if ns then runBinLoop polls (i + 1) fuel else .ok ()

/-- The `for i in range(0, 24)` loop of `verify_source_published`:
`true` means the early `return` (status `"Published"`) was taken. -/
def runSrcLoop (statuses : Nat → String) : Nat → Nat → Except PyErr Bool
  | _, 0 => .ok false
  | i, fuel + 1 =>
    let st := statuses i
    if st ≠ "Pending" ∧ st ≠ "Published" then
      .error (.valueError "Source package no longer exists")
    else if st = "Published" then .ok true
    else runSrcLoop statuses (i + 1) fuel

/-- `LaunchpadCheck.verify_source_published`: returns normally only when
a poll reports `"Published"` within 24 iterations; otherwise raises. -/
def verifySourcePublished (statuses : Nat → String) : Except PyErr Unit := do
  let published ← runSrcLoop statuses 0 24
  if published then .ok ()
  else .error (.valueError "Timed out, contact Launchpad admins")

/-- `LaunchpadCheck.verify_binaries_published`, parameterised by the
observed source statuses and binary polls.  After the polling loop —
whether it ended through `break` or through exhausting its 24 iterations
— the code unconditionally executes
`raise ValueError("Timed out, contact Launchpad admins")`. -/
def verifyBinariesPublished (statuses : Nat → String) (polls : Nat → Poll) :
    Except PyErr Unit := do
  let _ ← verifySourcePublished statuses
  let _ ← runBinLoop polls 0 24
  .error (.valueError "Timed out, contact Launchpad admins")

/-! ## `ci/jobgenerator.py` — metadata model and `parse_metadata`

A metadata document (after `clone_metadata` resolved `active_configs`)
is an insertion-ordered mapping from config-group names (the `.conf`
file name with the extension stripped) to groups; a group holds its
`default` dict and its `repositories` list.  `clone_metadata` itself —
network, filesystem, YAML — is the external boundary; everything from
`parse_metadata` on is embedded. -/

/-- One active config group: its `default` dict and `repositories`. -/
structure ConfGroup where
  default : Record
  repositories : List Record
  deriving DecidableEq, Repr

/-- `metadata_conf["active_configs"]` after resolution: group name ↦ group
in insertion order. -/
abbrev Doc := List (String × ConfGroup)

/-- `mdata_req_keys` (source lines 99–101).  Note that it contains
`upstream_url` and `upstream_branch`, which are also the two entries of
`mdata_opt_keys`. -/
def reqKeys : List String :=
  ["name", "packaging_url", "packaging_branch", "upload_target", "releases",
   "default_branch", "type", "upstream_url", "upstream_branch"]

/-- `mdata_opt_keys` (source line 102). -/
def optKeys : List String := ["upstream_url", "upstream_branch"]

/-- The default-inheritance pass (source lines 114–116): for each key of
`mdata_req_keys`, in that order, copy the group default onto the record
when the record lacks the key and the default has it (dict assignment of
a fresh key appends). -/
def fillDefaults (defaults : Record) (pkg : Record) : Record :=
  reqKeys.foldl
    (fun p k =>
      if hasKey p k = false then
        match recLookup defaults k with
        | some v => p ++ [(k, v)]
        | none => p
      else p)
    pkg

/-- The `mdata_sub_keys` substitution applied to one value (source lines
123–128): when the token `"NAME"` occurs in the value, replace it with
the record's current `name` value.  A list value containing `"NAME"` has
no `.replace` (`AttributeError`); a non-string replacement is a
`TypeError`; a missing `name` key is a `KeyError`.
`hasNameToken` is the `if skey in package[mkey]` test. -/
def hasNameToken : Value → Bool
  | .str s => strContains s "NAME"
  | .strList l => decide ("NAME" ∈ l)

/-- See `substOne`. -/
def substOne (pkg : Record) (v : Value) : Except PyErr Value :=
  if hasNameToken v then do
    let subKey ← item pkg "name"
    match v, subKey with
    | .str s, .str rep => .ok (.str (strReplaceAll s "NAME" rep))
    | .strList _, _ => .error (.attributeError "list has no attribute replace")
    | .str _, .strList _ => .error (.typeError "replace argument must be str")
  else .ok v

/-- The `for mkey in package:` loop (source lines 118–128) over a fixed
key list: reject a key outside `mdata_req_keys ∪ mdata_opt_keys`, then
substitute `"NAME"` in that key's current value.  Keys are never added or
removed by the loop body, so iterating the initial key list matches the
Python iteration over the mutating dict.  -/
def validateKeys (pkg : Record) : List String → Except PyErr Record
  | [] => .ok pkg
  | k :: ks =>
    if k ∉ reqKeys ∧ k ∉ optKeys then
      .error (.valueError "Invalid key present")
    else do
      let v ← item pkg k
      let vNew ← substOne pkg v
      validateKeys (recordSet pkg k vNew) ks

/-- Per-record body of `parse_metadata`: default inheritance, then the
validation-and-substitution loop. -/
def processRecord (defaults : Record) (pkg : Record) : Except PyErr Record :=
  let filled := fillDefaults defaults pkg
  validateKeys filled (filled.map (fun p => p.1))

/-- `mapM` for `Except`, written out so the claim proofs can invert it. -/
def eMapM (f : α → Except PyErr β) : List α → Except PyErr (List β)
  | [] => .ok []
  | a :: rest => do
    let b ← f a
    let bs ← eMapM f rest
    .ok (b :: bs)

/-- Per-group body of `parse_metadata` (source lines 105–128): read
`config["default"]["type"]` (a missing key raises `KeyError`), skip
merger groups entirely (`continue`), otherwise process every record. -/
def parseGroup (cg : String × ConfGroup) : Except PyErr (String × ConfGroup) := do
  let tv ← item cg.2.default "type"
  if tv = .str "merger" then .ok cg
  else do
    let rps ← eMapM (processRecord cg.2.default) cg.2.repositories
    .ok (cg.1, ⟨cg.2.default, rps⟩)

/-- `Generator.parse_metadata` on an already-fetched document. -/
def parseMetadata (doc : Doc) : Except PyErr Doc :=
  eMapM parseGroup doc

/-! ## `Generator.load_config` — job content

Template files and Jinja rendering are external (spec §6: a pure
function from template name and bindings to text); a rendered job
definition is therefore modelled as a constructor applied to exactly the
bindings the source passes to `template.render`. -/

/-- Rendered job content, one constructor per template with its render
bindings in source order. -/
inductive JobContent where
  | package (url branch upstream name release uploadTarget : Value)
  | merger (url : Value) (mergeCommands : String) (name : Value)
  | mgmt
  deriving DecidableEq, Repr

/-- Python iteration over a metadata value (`for release in …`,
`range(len(cascading))` with indexing): a list yields its elements, a
string yields its characters as one-character strings. -/
def pyIterList : Value → List String
  | .strList l => l
  | .str s => s.toList.map (fun c => c.toString)

/-- `"%s" % value` for the values a job name can interpolate: a string
formats as itself; a list formats as its `repr`-like rendering (the
programs only ever format strings here; the list rendering is an
abbreviated stand-in for Python's `repr`). -/
def pyFormat : Value → String
  | .str s => s
  | .strList l => "[" ++ String.intercalate ", " l ++ "]"

/-- The cascading-merge script builder (source lines 186–203).  The loop
walks the branch list by index; index 0 is checked out unconditionally,
and every later index `i` appends the create-or-checkout line for
`cascading[i]`, the fast-forward merge of `cascading[i-1]`, and the push
of `cascading[i]`.  The recursion carries `cascading[i-1]` as `prev`.
The literal `&amp;&amp;` is exactly what the source writes into the XML
template. -/
def mergerCascadeRest (prev : String) : List String → String
  | [] => ""
  | c :: rest =>
    "git branch -a | egrep \"remotes/origin/"
      ++ (c ++ "\" &amp;&amp; git checkout " ++ c ++ " || git ")
      ++ ("checkout -b " ++ c ++ "\n")
      ++ ("git merge --ff-only " ++ prev ++ "\n")
      ++ ("git push --set-upstream origin " ++ c ++ "\n")
      ++ mergerCascadeRest c rest

/-- The full cascade string for a branch list. -/
def mergerCascade : List String → String
  | [] => ""
  | b :: bs => "git checkout " ++ b ++ "\n" ++ mergerCascadeRest b bs

/-- `Generator.load_config(job_type, data)` (source lines 154–213).
Faithful to the source's order of effects: when `data` is present, the
`packaging_url` / `packaging_branch` / `upload_target` lookups happen
before the job-type dispatch; when it is absent and the job type is not
`release-mgmt`, the `AttributeError` is raised; an unrecognised job type
is the final `ValueError`. -/
def loadConfig (jobType : String) (data : Option Record) : Except PyErr JobContent :=
  match data with
  | some d => do
    let url ← item d "packaging_url"
    let branch ← item d "packaging_branch"
    let uploadTarget ← item d "upload_target"
    if strStartsWith jobType "package" then do
      let upstream ← item d "upstream_url"
      let name ← item d "name"
      let release ← item d "release"
      .ok (.package url branch upstream name release uploadTarget)
    else if jobType = "merger" then do
      let cascadeV ← item d "cascade"
      let cascade := mergerCascade (pyIterList cascadeV)
      let name ← item d "name"
      .ok (.merger url cascade name)
    else if jobType = "release-mgmt" then
      .ok .mgmt
    else
      .error (.valueError "Invalid job type")
  | none =>
    if jobType ≠ "release-mgmt" then
      .error (.attributeError "Data cannot be empty, cannot parse job data.")
    else
      .ok .mgmt

/-! ## `Generator.create_jenkins_jobs` — deriving the job set

The master loop interleaves deriving each job (name, rendered content,
view) with the `create_jenkins_job` call that applies it to the server.
Derivation never reads server state, so the run is embedded as a
derivation pass producing the ordered job list (`deriveJobs`) followed by
a fold of the store operation over it (`applyJobs`); the fold preserves
the source's per-job order of store calls exactly.

Mutation notes, matching the source:
* the merger loop writes `package["cascade"]` into the *parent* group's
  record dicts, which later merger configs naming the same parent then
  observe — the merger stage therefore threads the document state;
* the package loop writes `package["release"]` immediately before each
  `load_config` call; nothing later reads that key (package templates do
  not use it for other records, and the mgmt stage reads no records), so
  it is embedded as a local insertion on the record for that call;
* `total_rel` is a Python set built up during the package loop; it is
  embedded as a first-insertion-ordered duplicate-free list, and only
  order-insensitive facts (membership, length) are proved about it.
-/

/-- A job the run asks the server for: identity, rendered content and
the view it should belong to. -/
structure JobReq where
  name : String
  content : JobContent
  view : String
  deriving DecidableEq, Repr

/-- The bucket of config groups (in document order) whose
`default["type"]` equals `t` — source lines 259–266.  In the full run
every group's `default` carries a `type` (otherwise `parse_metadata`
already raised at line 110), so comparing the looked-up value models
`config["default"]["type"] == config_type`; a non-string `type` compares
unequal to every bucket name, as in Python. -/
def bucket (doc : Doc) (t : String) : Doc :=
  doc.filter (fun cg => recLookup cg.2.default "type" = some (.str t))

/-- Group lookup in the document (`metadata["active_configs"][name]`). -/
def docLookup : Doc → String → Option ConfGroup
  | [], _ => none
  | (k, g) :: r, key => if k = key then some g else docLookup r key

/-- Replace a group's contents in the document, keeping its position
(in-place mutation of the dict value in the source). -/
def docSet (doc : Doc) (name : String) (g : ConfGroup) : Doc :=
  doc.map (fun cg => if cg.1 = name then (cg.1, g) else cg)

/-- One parent repository inside the merger loop (source lines 274–279):
inherit the group-default cascade when the record lacks one, then build
the job name `config_name + "_" + package["name"]` (string concatenation:
a non-string name is a `TypeError`), then render.  Returns the possibly
updated record together with the job. -/
def mergerPackageStep (configName : String) (defaults : Record) (pkg : Record) :
    Except PyErr (Record × JobReq) := do
  let pkgC ←
    if hasKey pkg "cascade" then .ok pkg
    else do
      let cv ← item defaults "cascade"
      .ok (recordSet pkg "cascade" cv)
  let nameV ← item pkgC "name"
  let nameS ←
    match nameV with
    | .str s => .ok s
    | .strList _ => .error (.typeError "can only concatenate str")
  let content ← loadConfig "merger" (some pkgC)
  .ok (pkgC, ⟨configName ++ "_" ++ nameS, content, "merger"⟩)

/-- The body of `for package in parent["repositories"]`. -/
def mergerPackagesLoop (configName : String) (defaults : Record) :
    List Record → Except PyErr (List Record × List JobReq)
  | [] => .ok ([], [])
  | pkg :: rest => do
    let (pkgC, job) ← mergerPackageStep configName defaults pkg
    let (restC, jobs) ← mergerPackagesLoop configName defaults rest
    .ok (pkgC :: restC, job :: jobs)

/-- One merger config group (source lines 270–279): resolve
`config["default"]["parent"]` in the current document (a non-string value
cannot index the dict, a missing group is a `KeyError`), run the package
loop, and write the updated repositories back into the document. -/
def mergerConfigStep (st : Doc × List JobReq) (cg : String × ConfGroup) :
    Except PyErr (Doc × List JobReq) := do
  let (doc, jobs) := st
  let parentV ← item cg.2.default "parent"
  let parentName ←
    match parentV with
    | .str s => .ok s
    | .strList _ => .error (.typeError "unhashable type")
  let parent ←
    match docLookup doc parentName with
    | some g => .ok g
    | none => .error (.keyError parentName)
  let (repsC, pjobs) ← mergerPackagesLoop cg.1 cg.2.default parent.repositories
  .ok (docSet doc parentName ⟨parent.default, repsC⟩, jobs ++ pjobs)

/-- The merger stage: fold over the merger bucket, threading the document
(the buckets are snapshot before the loop, but only group `default`s are
read from the snapshot and defaults are never mutated). -/
def deriveMergerJobs (doc : Doc) : Except PyErr (Doc × List JobReq) :=
  (bucket doc "merger").foldlM mergerConfigStep (doc, [])

/-- One release iteration of the package loop (source lines 290–305):
set `package["release"]`, render the `package-{job_type}` template, and
name the job `"%s_%s_%s" % (release, config_name, package["name"])` with
view `release + " " + job_type`. -/
def packageReleaseStep (jobType configName : String) (pkg : Record)
    (release : String) : Except PyErr JobReq := do
  let pkgR := recordSet pkg "release" (.str release)
  let content ← loadConfig ("package-" ++ jobType) (some pkgR)
  let nameV ← item pkgR "name"
  .ok ⟨release ++ "_" ++ configName ++ "_" ++ pyFormat nameV, content,
       release ++ " " ++ jobType⟩

/-- One repository of a stable/unstable config: iterate its `releases`
value, producing that record's jobs and the releases it contributes to
`total_rel`. -/
def packageRecordJobs (jobType configName : String) (pkg : Record) :
    Except PyErr (List JobReq × List String) := do
  let rv ← item pkg "releases"
  let rels := pyIterList rv
  let jobs ← eMapM (packageReleaseStep jobType configName pkg) rels
  .ok (jobs, rels)

/-- One stable/unstable config group: all of its repositories. -/
def packageConfigJobs (jobType : String) (cg : String × ConfGroup) :
    Except PyErr (List JobReq × List String) := do
  let results ← eMapM (packageRecordJobs jobType cg.1) cg.2.repositories
  .ok ((results.map (fun p => p.1)).flatten, (results.map (fun p => p.2)).flatten)

/-- Python `set.add` on the insertion-ordered model of `total_rel`. -/
def pySetAdd (s : List String) (r : String) : List String :=
  if r ∈ s then s else s ++ [r]

/-- The package stage (source lines 282–305): all stable configs, then
all unstable configs; returns the ordered job list and the final
`total_rel` set. -/
def derivePackageJobs (doc : Doc) : Except PyErr (List JobReq × List String) := do
  let stables ← eMapM (packageConfigJobs "stable") (bucket doc "stable")
  let unstables ← eMapM (packageConfigJobs "unstable") (bucket doc "unstable")
  let parts := stables ++ unstables
  let jobs := (parts.map (fun p => p.1)).flatten
  let rels := (parts.map (fun p => p.2)).flatten
  .ok (jobs, rels.foldl pySetAdd [])

/-- The management stage (source lines 311–317): for every accumulated
release, a `mgmt_build_{release}_{jobtype}` job for both job types, then
the single aggregate job whose identity is the literal `merger`; all go
to the `mgmt` view. -/
def mgmtJobs (totalRel : List String) (content : JobContent) : List JobReq :=
  totalRel.flatMap
    (fun r =>
      ["stable", "unstable"].map
        (fun t => ⟨"mgmt_build_" ++ r ++ "_" ++ t, content, "mgmt"⟩))
    ++ [⟨"merger", content, "mgmt"⟩]

/-- The whole derivation on a parsed document: merger stage, package
stage, then the management jobs rendered from the `release-mgmt`
template. -/
def deriveFromParsed (doc : Doc) : Except PyErr (List JobReq) := do
  let (docM, mjobs) ← deriveMergerJobs doc
  let (pjobs, totalRel) ← derivePackageJobs docM
  let mgmtContent ← loadConfig "release-mgmt" none
  .ok (mjobs ++ pjobs ++ mgmtJobs totalRel mgmtContent)

/-- `Generator.create_jenkins_jobs` up to the store effects: parse the
metadata, then derive the ordered job list the run applies. -/
def deriveJobs (doc : Doc) : Except PyErr (List JobReq) := do
  let parsed ← parseMetadata doc
  deriveFromParsed parsed

/-! ## The Jenkins job store and `create_jenkins_job`

The server is the external collaborator of spec §4.3: jobs are a mapping
from identity to stored content, views a mapping from view name to the
list of member job identities; view handles are identified with view
names. -/

/-- The observable Jenkins server state. -/
structure JState where
  jobs : List (String × JobContent)
  views : List (String × List String)
  deriving DecidableEq, Repr

/-- An initially-empty job store. -/
def emptyStore : JState := ⟨[], []⟩

/-- `name in server.keys()`. -/
def hasJob (name : String) (jobs : List (String × JobContent)) : Bool :=
  jobs.any (fun p => p.1 = name)

/-- `job.update_config(config)`: replace the stored content of the job
with this identity. -/
def setJob (name : String) (content : JobContent)
    (jobs : List (String × JobContent)) : List (String × JobContent) :=
  jobs.map (fun p => (p.1, if p.1 = name then content else p.2))

/-- `view in server.views`. -/
def hasView (name : String) (views : List (String × List String)) : Bool :=
  views.any (fun p => p.1 = name)

/-- `name in server.views[view]`. -/
def viewHas (view name : String) (views : List (String × List String)) : Bool :=
  views.any (fun p => p.1 = view ∧ name ∈ p.2)

/-- `view.add_job(name)`. -/
def addToView (view name : String) (views : List (String × List String)) :
    List (String × List String) :=
  views.map (fun p => (p.1, if p.1 = view then p.2 ++ [name] else p.2))

/-- `Generator.create_jenkins_job(server, config, name, view)` (source
lines 216–233): an existing identity gets its content updated and its
views untouched; a new identity is created, the view is created when
absent, and the job is added to the view unless already a member. -/
def applyJob (s : JState) (j : JobReq) : JState :=
  if hasJob j.name s.jobs then
    ⟨setJob j.name j.content s.jobs, s.views⟩
  else
    let jobs := s.jobs ++ [(j.name, j.content)]
    let views := if hasView j.view s.views then s.views else s.views ++ [(j.view, [])]
    let views := if viewHas j.view j.name views then views else addToView j.view j.name views
    ⟨jobs, views⟩

/-- The run's sequence of `create_jenkins_job` calls. -/
def applyJobs (l : List JobReq) (s : JState) : JState :=
  l.foldl applyJob s

/-- The releases mentioned, in order with repetition, across the
stable- then unstable-typed groups of a document — the sequence
`total_rel.add` is called on during a run that completes. -/
def allReleases (doc : Doc) : List String :=
  (bucket doc "stable" ++ bucket doc "unstable").flatMap
    (fun cg => cg.2.repositories.flatMap
      (fun pkg =>
        match recLookup pkg "releases" with
        | some rv => pyIterList rv
        | none => []))

/-! ## Claim-side descriptions

Definitions in this section follow the wording of the specification (not
the source); the theorems below compare them with the embedded code. -/

/-- Concatenation of script fragments. -/
def joinStr : List String → String
  | [] => ""
  | s :: rest => s ++ joinStr rest

/-- Spec §4.2 (a): create `c` tracking the remote branch when it exists,
else create a fresh local branch, and check it out. -/
def createOrCheckoutCmd (c : String) : String :=
  "git branch -a | egrep \"remotes/origin/" ++ c ++ "\" &amp;&amp; git checkout "
    ++ c ++ " || git checkout -b " ++ c ++ "\n"

/-- Spec §4.2 (b): fast-forward-only merge of the previous branch. -/
def mergeFFCmd (p : String) : String :=
  "git merge --ff-only " ++ p ++ "\n"

/-- Spec §4.2 (c): push the branch, setting the upstream. -/
def pushCmd (c : String) : String :=
  "git push --set-upstream origin " ++ c ++ "\n"

/-- A history of `TimerMetrics.start` calls (clock value, timer name)
replayed on a fresh `TimerMetrics`: the state in which exactly the
listed names have ever been started. -/
def runStarts (ops : List (Int × String)) : TimerData :=
  ops.foldl (fun d p => timerStart p.1 p.2 d) []

/-! ### Concrete documents and records used by witnesses and
counterexamples -/

/-- A repository record carrying every key the package templates read. -/
def exRecFoo : Record :=
  [("name", .str "foo"), ("packaging_url", .str "u"),
   ("packaging_branch", .str "b"), ("upload_target", .str "t"),
   ("releases", .strList ["bionic"]), ("upstream_url", .str "uu")]

/-- A document whose single stable-typed group is *named* `stable`. -/
def exDocStable : Doc := [("stable", ⟨[("type", .str "stable")], [exRecFoo]⟩)]

/-- The job list `deriveJobs exDocStable` produces. -/
def exJobsStable : List JobReq :=
  [⟨"bionic_stable_foo",
    .package (.str "u") (.str "b") (.str "uu") (.str "foo") (.str "bionic") (.str "t"),
    "bionic stable"⟩,
   ⟨"mgmt_build_bionic_stable", .mgmt, "mgmt"⟩,
   ⟨"mgmt_build_bionic_unstable", .mgmt, "mgmt"⟩,
   ⟨"merger", .mgmt, "mgmt"⟩]

/-- The same stable-typed group *named* `grp` instead. -/
def exDocGrp : Doc := [("grp", ⟨[("type", .str "stable")], [exRecFoo]⟩)]

/-- A document whose only group is merger-typed and holds a record with
the invalid key `bogus`. -/
def exDocMergerBogus : Doc :=
  [("m", ⟨[("type", .str "merger")], [[("bogus", .str "x")]]⟩)]

/-- A stable-typed group holding a record with the invalid key
`bogus`. -/
def exDocBogusStable : Doc :=
  [("g", ⟨[("type", .str "stable")], [[("bogus", .str "x")]]⟩)]

/-- A stable group whose record and default both lack the required
`packaging_url` (and most other required keys). -/
def exDocMissingReq : Doc :=
  [("grp", ⟨[("type", .str "stable")], [[("name", .str "foo")]]⟩)]

/-- A merger-job record whose packaging URL points at a host the
repository cannot push to (a read-only mirror). -/
def exRecReadOnly : Record :=
  [("packaging_url", .str "https://mirror.example/read-only/foo.git"),
   ("packaging_branch", .str "b"), ("upload_target", .str "t"),
   ("cascade", .strList ["main", "ubuntu"]), ("name", .str "foo")]

/-- A document with one stable group named `g` whose record targets the
releases `bionic` and `focal`, used for the management-job claim. -/
def exDocTwoRel : Doc :=
  [("g", ⟨[("type", .str "stable")],
    [[("name", .str "foo"), ("packaging_url", .str "u"),
      ("packaging_branch", .str "b"), ("upload_target", .str "t"),
      ("releases", .strList ["bionic", "focal"]),
      ("upstream_url", .str "uu")]]⟩)]

/-! ### Characterisations of the store fold used in the idempotence proof -/

/-- The jobs component of one `create_jenkins_job` call. -/
def jobsStep (j : JobReq) (js : List (String × JobContent)) :
    List (String × JobContent) :=
  if hasJob j.name js then setJob j.name j.content js
  else js ++ [(j.name, j.content)]

/-- The jobs component of a run. -/
def jobsApply (l : List JobReq) (js : List (String × JobContent)) :
    List (String × JobContent) :=
  l.foldl (fun js j => jobsStep j js) js

/-- The content the last request for identity `n` in the run carries, if
any. -/
def lastContent : List JobReq → String → Option JobContent
  | [], _ => none
  | j :: l, n =>
    match lastContent l n with
    | some c => some c
    | none => if j.name = n then some j.content else none

/-- Replaying a run purely as content updates. -/
def setAll (l : List JobReq) (js : List (String × JobContent)) :
    List (String × JobContent) :=
  l.foldl (fun js j => setJob j.name j.content js) js

/-! # Theorems -/

/-! ## C10 — `TimerMetrics.stop` on a never-started name -/

/-- Appending an entry for a different name keeps `name` absent. -/
theorem tLookup_append_none (d : TimerData) (name n : String) (e : TimerEntry)
    (hne : n ≠ name) (h : tLookup d name = none) :
    tLookup (d ++ [(n, e)]) name = none := by
  induction d with
  | nil => simp [tLookup, hne]
  | cons kv rest ih =>
    obtain ⟨k, v⟩ := kv
    simp only [List.cons_append, tLookup] at h ⊢
    by_cases hk : k = name
    · simp [hk] at h
    · simp only [hk, if_false] at h ⊢
      exact ih h

/-- A value-only rewrite of the entries keeps `name` absent. -/
theorem tLookup_tUpdate_none (d : TimerData) (name n : String) (e : TimerEntry)
    (h : tLookup d name = none) :
    tLookup (tUpdate d n e) name = none := by
  induction d with
  | nil => rfl
  | cons kv rest ih =>
    obtain ⟨k, v⟩ := kv
    simp only [tLookup] at h
    by_cases hk : k = name
    · simp [hk] at h
    · simp only [hk, if_false] at h
      simpa only [tUpdate, List.map_cons, tLookup, hk, if_false] using ih h

/-- A `start` for another name never introduces `name`. -/
theorem tLookup_timerStart_other (t : Int) (n name : String) (d : TimerData)
    (hne : n ≠ name) (h : tLookup d name = none) :
    tLookup (timerStart t n d) name = none := by
  unfold timerStart
  cases tLookup d n with
  | none => exact tLookup_append_none d name n _ hne h
  | some e =>
    by_cases hr : e.running = false
    · simp only [hr, if_true]
      exact tLookup_tUpdate_none d name n _ h
    · simp [hr, h]

/-- A name that no `start` in the history mentions is absent from the
replayed state. -/
theorem tLookup_runStarts_none (ops : List (Int × String)) (name : String)
    (h : name ∉ ops.map (fun p => p.2)) :
    tLookup (runStarts ops) name = none := by
  suffices hgen : ∀ d, tLookup d name = none →
      tLookup (ops.foldl (fun d p => timerStart p.1 p.2 d) d) name = none by
    exact hgen [] rfl
  induction ops with
  | nil => intro d hd; exact hd
  | cons p rest ih =>
    intro d hd
    simp only [List.map_cons, List.mem_cons] at h
    push_neg at h
    simp only [List.foldl_cons]
    exact ih h.2 _ (tLookup_timerStart_other p.1 p.2 name d (fun he => h.1 he.symm) hd)

/-- C10: for a name that was never started, `TimerMetrics.stop` raises
`KeyError`, not the `ValueError` its guard suggests: the source's
`assert ValueError("Timer " + name + " not found")` asserts a freshly
built exception object, which is always truthy, so the assert never
fires and control reaches `self.data[name]["running"]`, where the
missing key raises `KeyError`. -/
theorem timerStop_never_started_keyError (ops : List (Int × String))
    (name : String) (tVal : Int) (h : name ∉ ops.map (fun p => p.2)) :
    timerStop tVal name (runStarts ops) = .error (.keyError name) ∧
      ∀ msg, PyErr.keyError name ≠ PyErr.valueError msg := by
  refine ⟨?_, fun msg hc => by cases hc⟩
  unfold timerStop
  rw [tLookup_runStarts_none ops name h]

/-- Witness for C10 at a concrete history: two other timers started,
`"Clone the metadata"` never started. -/
theorem timerStop_never_started_keyError_witness :
    timerStop 7 "Clone the metadata"
        (runStarts [(1, "Parse the metadata"), (3, "Auth to Jenkins")]) =
      .error (.keyError "Clone the metadata") ∧
      ∀ msg, PyErr.keyError "Clone the metadata" ≠ PyErr.valueError msg :=
  timerStop_never_started_keyError [(1, "Parse the metadata"), (3, "Auth to Jenkins")]
    "Clone the metadata" 7 (by decide)

/-! ## C9 — `verify_binaries_published` never returns normally -/

/-- C9 (amended): `verify_binaries_published` never returns normally —
every execution ends in some raised exception, and a run in which no
iteration raises falls through the loop (by `break` or exhaustion) to
`raise ValueError("Timed out, contact Launchpad admins")`.  The second
conjunct exhibits the only kind of `break` path that exists: all builds
`Successfully built` and an *empty* published-binaries list (a non-empty
one always raises — see the counterexample). -/
theorem verifyBinariesPublished_never_returns :
    (∀ (statuses : Nat → String) (polls : Nat → Poll),
      ∃ e, verifyBinariesPublished statuses polls = .error e) ∧
    verifyBinariesPublished (fun _ => "Published")
        (fun _ => .data ["Successfully built"] []) =
      .error (.valueError "Timed out, contact Launchpad admins") := by
  constructor
  · intro statuses polls
    unfold verifyBinariesPublished
    cases h1 : verifySourcePublished statuses with
    | error e => exact ⟨e, rfl⟩
    | ok u =>
      cases h2 : runBinLoop polls 0 24 with
      | error e => exact ⟨e, rfl⟩
      | ok v => exact ⟨.valueError "Timed out, contact Launchpad admins", rfl⟩
  · rfl

/-- Witness for C9 at concrete inputs. -/
theorem verifyBinariesPublished_never_returns_witness :
    ∃ e, verifyBinariesPublished (fun _ => "Pending") (fun _ => Poll.indexError) =
      .error e :=
  verifyBinariesPublished_never_returns.1 (fun _ => "Pending") (fun _ => Poll.indexError)

/-- Counterexample to C9 as stated: on the path where every build
reports `Successfully built` and every binary reports `Published` (one
binary here), the loop does *not* exit via `break` into the timeout
raise — the `print(binary_package_name, "published.")` statement raises
`NameError` on the undefined name `binary_package_name`, so the run ends
with `NameError`, not `ValueError("Timed out, contact Launchpad
admins")`. -/
theorem verifyBinariesPublished_published_counterexample :
    verifyBinariesPublished (fun _ => "Published")
        (fun _ => .data ["Successfully built"] ["Published"]) =
      .error (.nameError "binary_package_name") ∧
      PyErr.nameError "binary_package_name" ≠
        PyErr.valueError "Timed out, contact Launchpad admins" :=
  ⟨rfl, by decide⟩

/-! ## C3 — structure of the generated cascade script -/

/-- The split of the create-or-checkout line across two `+=` statements
in the source joins into the single command the spec describes. -/
theorem gitLitMerge (X : String) :
    " || git " ++ ("checkout -b " ++ X) = " || git checkout -b " ++ X := by
  rw [← String.append_assoc]
  rfl

/-- The loop tail of the cascade builder emits, for each consecutive
pair of branches, exactly the create-or-checkout, fast-forward-merge and
push fragments, in order. -/
theorem mergerCascadeRest_eq (prev : String) (bs : List String) :
    mergerCascadeRest prev bs =
      joinStr (((prev :: bs).zip bs).map
        (fun pc => createOrCheckoutCmd pc.2 ++ mergeFFCmd pc.1 ++ pushCmd pc.2)) := by
  induction bs generalizing prev with
  | nil => rfl
  | cons c rest ih =>
    show mergerCascadeRest prev (c :: rest) =
      joinStr (((prev :: c :: rest).zip (c :: rest)).map _)
    rw [List.zip_cons_cons, List.map_cons]
    show _ = _ ++ joinStr _
    rw [← ih c]
    simp only [mergerCascadeRest, createOrCheckoutCmd, mergeFFCmd, pushCmd,
      String.append_assoc, gitLitMerge]

/-- In a duplicate-free list, consecutive elements differ. -/
theorem zip_tail_ne_of_nodup :
    ∀ (l : List String), l.Nodup → ∀ pc ∈ l.zip l.tail, pc.1 ≠ pc.2
  | [], _, pc, hpc => by cases hpc
  | [_], _, pc, hpc => by cases hpc
  | a :: c :: r, h, pc, hpc => by
    rw [show (a :: c :: r).tail = c :: r from rfl, List.zip_cons_cons,
      List.mem_cons] at hpc
    rcases hpc with hpc | hpc
    · subst hpc
      show a ≠ c
      intro hac
      exact (List.nodup_cons.mp h).1 (by rw [hac]; exact List.mem_cons_self c r)
    · exact zip_tail_ne_of_nodup (c :: r) (List.nodup_cons.mp h).2 pc hpc

/-- C3: for a non-empty cascade list the generated merger script checks
out the first branch unconditionally and then, for each subsequent
branch in order, emits exactly the three steps create-or-checkout,
fast-forward merge of the previous branch, and push with upstream; and
when the branch names are distinct no merge step merges a branch into
itself (every emitted merge fragment names the predecessor, which then
differs from its target). -/
theorem cascade_script_structure (b : String) (bs : List String) :
    mergerCascade (b :: bs) =
      "git checkout " ++ b ++ "\n" ++
        joinStr (((b :: bs).zip bs).map
          (fun pc => createOrCheckoutCmd pc.2 ++ mergeFFCmd pc.1 ++ pushCmd pc.2)) ∧
      ((b :: bs).Nodup → ∀ pc ∈ (b :: bs).zip bs, pc.1 ≠ pc.2) := by
  constructor
  · show "git checkout " ++ b ++ "\n" ++ mergerCascadeRest b bs = _
    rw [mergerCascadeRest_eq]
  · intro h pc hpc
    exact zip_tail_ne_of_nodup (b :: bs) h pc hpc

/-- Witness for C3 at the documented example cascade
`["main", "stable-1", "stable-2"]`. -/
theorem cascade_script_structure_witness :
    mergerCascade ["main", "stable-1", "stable-2"] =
      "git checkout " ++ "main" ++ "\n" ++
        joinStr ((["main", "stable-1", "stable-2"].zip ["stable-1", "stable-2"]).map
          (fun pc => createOrCheckoutCmd pc.2 ++ mergeFFCmd pc.1 ++ pushCmd pc.2)) ∧
      (["main", "stable-1", "stable-2"] : List String).Nodup :=
  ⟨(cascade_script_structure "main" ["stable-1", "stable-2"]).1, by decide⟩

/-! ## C2 — idempotence of the reconciliation run -/

/-- The jobs component of `applyJob` is `jobsStep`. -/
theorem applyJob_jobs (s : JState) (j : JobReq) :
    (applyJob s j).jobs = jobsStep j s.jobs := by
  unfold applyJob jobsStep
  by_cases h : hasJob j.name s.jobs <;> simp [h]

/-- The jobs component of a run is the jobs-only fold. -/
theorem applyJobs_jobs (l : List JobReq) (s : JState) :
    (applyJobs l s).jobs = jobsApply l s.jobs := by
  induction l generalizing s with
  | nil => rfl
  | cons j l ih =>
    show (applyJobs l (applyJob s j)).jobs = jobsApply l (jobsStep j s.jobs)
    rw [ih, applyJob_jobs]

/-- Content updates do not change which identities exist. -/
theorem hasJob_setJob (n m : String) (c : JobContent)
    (js : List (String × JobContent)) :
    hasJob n (setJob m c js) = hasJob n js := by
  unfold hasJob setJob
  rw [List.any_map]
  rfl

/-- A `create_jenkins_job` call keeps every existing identity. -/
theorem hasJob_jobsStep_mono (n : String) (j : JobReq)
    (js : List (String × JobContent)) (h : hasJob n js = true) :
    hasJob n (jobsStep j js) = true := by
  unfold jobsStep
  by_cases hj : hasJob j.name js = true
  · rw [if_pos hj, hasJob_setJob]
    exact h
  · rw [if_neg hj]
    unfold hasJob at h ⊢
    rw [List.any_append, h]
    rfl

/-- A `create_jenkins_job` call establishes its own identity. -/
theorem hasJob_jobsStep_self (j : JobReq) (js : List (String × JobContent)) :
    hasJob j.name (jobsStep j js) = true := by
  unfold jobsStep
  by_cases hj : hasJob j.name js = true
  · rw [if_pos hj, hasJob_setJob]
    exact hj
  · rw [if_neg hj]
    unfold hasJob
    rw [List.any_append]
    simp

/-- Identities only accumulate across a run. -/
theorem hasJob_jobsApply_mono (n : String) (l : List JobReq)
    (js : List (String × JobContent)) (h : hasJob n js = true) :
    hasJob n (jobsApply l js) = true := by
  induction l generalizing js with
  | nil => exact h
  | cons j l ih => exact ih (jobsStep j js) (hasJob_jobsStep_mono n j js h)

/-- After the jobs-only fold, every requested identity exists. -/
theorem hasJob_after_fold (l : List JobReq) (js : List (String × JobContent)) :
    ∀ j ∈ l, hasJob j.name (jobsApply l js) = true := by
  induction l generalizing js with
  | nil => intro j hj; cases hj
  | cons j0 l ih =>
    intro j hj
    rcases List.mem_cons.mp hj with rfl | hj
    · exact hasJob_jobsApply_mono j.name l _ (hasJob_jobsStep_self j js)
    · exact ih (jobsStep j0 js) j hj

/-- After a run, every requested identity exists. -/
theorem hasJob_after_run (l : List JobReq) (s : JState) :
    ∀ j ∈ l, hasJob j.name (applyJobs l s).jobs = true := by
  intro j hj
  rw [applyJobs_jobs]
  exact hasJob_after_fold l s.jobs j hj

/-- A run over identities that all already exist only updates contents
and leaves the views untouched. -/
theorem applyJobs_all_present (l : List JobReq) (s : JState)
    (h : ∀ j ∈ l, hasJob j.name s.jobs = true) :
    applyJobs l s = ⟨setAll l s.jobs, s.views⟩ := by
  induction l generalizing s with
  | nil => rfl
  | cons j l ih =>
    have hj : hasJob j.name s.jobs = true := h j (List.mem_cons_self j l)
    have hstep : applyJob s j = ⟨setJob j.name j.content s.jobs, s.views⟩ := by
      unfold applyJob
      rw [if_pos hj]
    show applyJobs l (applyJob s j) = _
    rw [hstep]
    rw [ih ⟨setJob j.name j.content s.jobs, s.views⟩
      (fun j2 hj2 => by
        show hasJob j2.name (setJob j.name j.content s.jobs) = true
        rw [hasJob_setJob]
        exact h j2 (List.mem_cons_of_mem j hj2))]
    rfl

/-- Unfolding `lastContent` on a cons. -/
theorem lastContent_cons (j : JobReq) (l : List JobReq) (n : String) :
    lastContent (j :: l) n =
      match lastContent l n with
      | some c => some c
      | none => if j.name = n then some j.content else none := rfl

/-- Replaying a run as pure content updates rewrites every entry to the
last content requested for its identity (or leaves it alone). -/
theorem setAll_eq_map (l : List JobReq) (js : List (String × JobContent)) :
    setAll l js = js.map (fun p =>
      (p.1, match lastContent l p.1 with | some c => c | none => p.2)) := by
  induction l generalizing js with
  | nil =>
    show js = _
    have h1 : List.map (fun (p : String × JobContent) =>
        (p.1, match lastContent [] p.1 with | some c => c | none => p.2)) js =
        List.map (fun p => p) js :=
      List.map_congr_left (fun p _ => rfl)
    rw [h1]
    simp
  | cons j l ih =>
    show setAll l (setJob j.name j.content js) = _
    rw [ih]
    unfold setJob
    rw [List.map_map]
    refine List.map_congr_left (fun p _ => ?_)
    simp only [Function.comp_apply]
    rw [lastContent_cons]
    cases hlast : lastContent l p.1 with
    | some c => rfl
    | none =>
      by_cases hpn : p.1 = j.name
      · simp [hpn]
      · have hnp : ¬j.name = p.1 := fun h => hpn h.symm
        simp [hpn, hnp]

/-- Membership in the jobs list implies the identity exists. -/
theorem hasJob_of_mem (p : String × JobContent) (js : List (String × JobContent))
    (h : p ∈ js) : hasJob p.1 js = true := by
  unfold hasJob
  rw [List.any_eq_true]
  exact ⟨p, h, by simp⟩

/-- Every entry the jobs-only fold leaves in the store carries the last
content requested for its identity; entries the run never touched
predate it. -/
theorem jobsApply_entry (l : List JobReq) (js : List (String × JobContent))
    (p : String × JobContent) (hp : p ∈ jobsApply l js) :
    (match lastContent l p.1 with
     | some c => p.2 = c
     | none => p ∈ js) := by
  induction l generalizing js with
  | nil => exact hp
  | cons j l ih =>
    have hstep := ih (jobsStep j js) hp
    rw [lastContent_cons]
    cases hlast : lastContent l p.1 with
    | some c =>
      rw [hlast] at hstep
      exact hstep
    | none =>
      rw [hlast] at hstep
      by_cases hpn : j.name = p.1
      · rw [if_pos hpn]
        show p.2 = j.content
        unfold jobsStep at hstep
        by_cases hj : hasJob j.name js = true
        · rw [if_pos hj] at hstep
          unfold setJob at hstep
          rcases List.mem_map.mp hstep with ⟨q, _, rfl⟩
          show (if q.1 = j.name then j.content else q.2) = j.content
          rw [if_pos hpn.symm]
        · rw [if_neg hj] at hstep
          rcases List.mem_append.mp hstep with hin | hin
          · exact absurd (by rw [hpn]; exact hasJob_of_mem p js hin) hj
          · have h2 := List.mem_singleton.mp hin
            rw [h2]
      · rw [if_neg hpn]
        show p ∈ js
        unfold jobsStep at hstep
        by_cases hj : hasJob j.name js = true
        · rw [if_pos hj] at hstep
          unfold setJob at hstep
          rcases List.mem_map.mp hstep with ⟨q, hqin, rfl⟩
          have hqn : ¬q.1 = j.name := fun h => hpn (by rw [h])
          show ((fun p => (p.1, if p.1 = j.name then j.content else p.2)) q) ∈ js
          simp only [hqn, if_false]
          exact hqin
        · rw [if_neg hj] at hstep
          rcases List.mem_append.mp hstep with hin | hin
          · exact hin
          · have h2 := List.mem_singleton.mp hin
            exact absurd (by rw [h2]) hpn

/-- Applying a run a second time is the identity on the state it
produced from an empty store. -/
theorem applyJobs_idem (l : List JobReq) :
    applyJobs l (applyJobs l emptyStore) = applyJobs l emptyStore := by
  have hall : ∀ j ∈ l, hasJob j.name (applyJobs l emptyStore).jobs = true :=
    hasJob_after_run l emptyStore
  rw [applyJobs_all_present l (applyJobs l emptyStore) hall]
  have hjobs : setAll l (applyJobs l emptyStore).jobs =
      (applyJobs l emptyStore).jobs := by
    rw [setAll_eq_map]
    have hfix : ∀ p ∈ (applyJobs l emptyStore).jobs,
        (p.1, (match lastContent l p.1 with | some c => c | none => p.2)) = p := by
      intro p hp
      have hent := jobsApply_entry l ([] : List (String × JobContent)) p
        (by rw [applyJobs_jobs] at hp; exact hp)
      revert hent
      cases lastContent l p.1 with
      | some c =>
        intro hent
        show (p.1, c) = p
        rw [← hent]
      | none =>
        intro hent
        cases hent
    rw [List.map_congr_left hfix]
    simp
  rw [hjobs]

/-- C2: for every valid metadata document — one the generator derives a
job list from without raising — performing the derived run twice
against an initially-empty job store ends in exactly the state a single
run produces: every identity already exists during the second run, so
it only re-applies stored contents and adds no job and no view. -/
theorem reconcile_idempotent (doc : Doc) (l : List JobReq)
    (_hvalid : deriveJobs doc = .ok l) :
    applyJobs l (applyJobs l emptyStore) = applyJobs l emptyStore :=
  applyJobs_idem l

/-- Witness for C2 on a one-package document. -/
theorem reconcile_idempotent_witness :
    deriveJobs exDocStable = .ok exJobsStable ∧
      applyJobs exJobsStable (applyJobs exJobsStable emptyStore) =
        applyJobs exJobsStable emptyStore :=
  ⟨by rfl, reconcile_idempotent exDocStable exJobsStable (by rfl)⟩

/-! ## C8 — management jobs and the `mgmt` view -/

/-- No member test can succeed against a view that does not exist. -/
theorem viewHas_false_of_hasView_false (v n : String)
    (vs : List (String × List String)) (h : hasView v vs = false) :
    viewHas v n vs = false := by
  unfold hasView at h
  unfold viewHas
  rw [List.any_eq_false] at h ⊢
  intro p hp
  have := h p hp
  simp at this ⊢
  intro hv
  exact absurd hv this

/-- Adding a job to a view changes no view's existence. -/
theorem hasView_addToView (v w n : String) (vs : List (String × List String)) :
    hasView v (addToView w n vs) = hasView v vs := by
  unfold hasView addToView
  rw [List.any_map]
  rfl

/-- A freshly appended view exists. -/
theorem hasView_append_self (v : String) (ms : List String)
    (vs : List (String × List String)) :
    hasView v (vs ++ [(v, ms)]) = true := by
  unfold hasView
  rw [List.any_append]
  simp

/-- `add_job` makes the job a member of an existing view. -/
theorem viewHas_addToView_self (v n : String) (vs : List (String × List String))
    (h : hasView v vs = true) :
    viewHas v n (addToView v n vs) = true := by
  unfold hasView at h
  unfold viewHas addToView
  rw [List.any_map, List.any_eq_true] at *
  rcases h with ⟨p, hp, hv⟩
  refine ⟨p, hp, ?_⟩
  simp at hv ⊢
  simp [hv]

/-- C8 (amended): creating a management job against a store on which the
`mgmt` view does not yet exist does not fail — `create_jenkins_job`
creates the view like any other (`server.views.create(view)`) on first
reference and then adds the job to it.  Nothing in the run requires the
view to pre-exist. -/
theorem mgmt_view_lazily_created (s : JState) (j : JobReq)
    (hv : j.view = "mgmt") (hj : hasJob j.name s.jobs = false)
    (hmv : hasView "mgmt" s.views = false) :
    hasView "mgmt" (applyJob s j).views = true ∧
      viewHas "mgmt" j.name (applyJob s j).views = true := by
  have hj' : ¬hasJob j.name s.jobs = true := by rw [hj]; simp
  have hmv' : ¬hasView j.view s.views = true := by rw [hv, hmv]; simp
  unfold applyJob
  rw [if_neg hj']
  simp only [if_neg hmv']
  have hnomem : viewHas j.view j.name (s.views ++ [(j.view, [])]) = false := by
    unfold viewHas
    rw [List.any_append]
    have h1 : viewHas j.view j.name s.views = false := by
      apply viewHas_false_of_hasView_false
      rw [hv, hmv]
    unfold viewHas at h1
    rw [h1]
    simp
  have hnomem' : ¬viewHas j.view j.name (s.views ++ [(j.view, [])]) = true := by
    rw [hnomem]; simp
  simp only [if_neg hnomem']
  constructor
  · show hasView "mgmt" (addToView j.view j.name (s.views ++ [(j.view, [])])) = true
    rw [hasView_addToView, hv]
    exact hasView_append_self "mgmt" [] s.views
  · show viewHas "mgmt" j.name (addToView j.view j.name (s.views ++ [(j.view, [])])) = true
    rw [hv] at *
    exact viewHas_addToView_self "mgmt" j.name _ (hasView_append_self "mgmt" [] s.views)

/-- Witness for C8's amended statement at a concrete job and an empty
store (which has no `mgmt` view). -/
theorem mgmt_view_lazily_created_witness :
    hasView "mgmt" (applyJob emptyStore ⟨"merger", .mgmt, "mgmt"⟩).views = true ∧
      viewHas "mgmt" "merger" (applyJob emptyStore ⟨"merger", .mgmt, "mgmt"⟩).views = true :=
  mgmt_view_lazily_created emptyStore ⟨"merger", .mgmt, "mgmt"⟩ rfl rfl rfl

/-- Counterexample to C8 as stated: applying a management job to a store
with no `mgmt` view is not fatal, and the reconciler itself creates the
view — after the call the store holds a `mgmt` view containing the job. -/
theorem mgmt_view_created_counterexample :
    hasView "mgmt" emptyStore.views = false ∧
      (applyJob emptyStore ⟨"mgmt_build_bionic_stable", .mgmt, "mgmt"⟩).views =
        [("mgmt", ["mgmt_build_bionic_stable"])] :=
  ⟨rfl, rfl⟩

/-! ## Inversion toolkit for the `Except` pipelines -/

/-- Bind on a raised exception. -/
theorem errBind {α β : Type} (e : PyErr) (k : α → Except PyErr β) :
    (Except.error e >>= k) = Except.error e := rfl

/-- Bind on a normal value. -/
theorem okBind {α β : Type} (a : α) (k : α → Except PyErr β) :
    (Except.ok a >>= k) = k a := rfl

/-- Inverting one step of `eMapM`. -/
theorem eMapM_cons_ok {α β : Type} (f : α → Except PyErr β) (x : α)
    (rest : List α) (ys : List β) (h : eMapM f (x :: rest) = .ok ys) :
    ∃ b bs, f x = .ok b ∧ eMapM f rest = .ok bs ∧ ys = b :: bs := by
  unfold eMapM at h
  cases hx : f x with
  | error e =>
    rw [hx, errBind] at h
    cases h
  | ok b =>
    rw [hx, okBind] at h
    cases hrest : eMapM f rest with
    | error e =>
      rw [hrest, errBind] at h
      cases h
    | ok bs =>
      rw [hrest, okBind] at h
      cases h
      exact ⟨b, bs, rfl, rfl, rfl⟩

/-- A successful `eMapM` ran `f` successfully on every element, with the
result in the output list. -/
theorem eMapM_ok_forall_mem {α β : Type} (f : α → Except PyErr β)
    (l : List α) (ys : List β) (h : eMapM f l = .ok ys) :
    ∀ a ∈ l, ∃ b, f a = .ok b ∧ b ∈ ys := by
  induction l generalizing ys with
  | nil => intro a ha; cases ha
  | cons x rest ih =>
    intro a ha
    rcases eMapM_cons_ok f x rest ys h with ⟨b, bs, hx, hrest, rfl⟩
    rcases List.mem_cons.mp ha with rfl | ha
    · exact ⟨b, hx, List.mem_cons_self b bs⟩
    · rcases ih bs hrest a ha with ⟨b2, hb2, hmem⟩
      exact ⟨b2, hb2, List.mem_cons_of_mem b hmem⟩

/-- Every output of a successful `eMapM` comes from some input. -/
theorem eMapM_ok_mem {α β : Type} (f : α → Except PyErr β)
    (l : List α) (ys : List β) (h : eMapM f l = .ok ys) :
    ∀ b ∈ ys, ∃ a ∈ l, f a = .ok b := by
  induction l generalizing ys with
  | nil =>
    intro b hb
    cases h
    cases hb
  | cons x rest ih =>
    intro b hb
    rcases eMapM_cons_ok f x rest ys h with ⟨b0, bs, hx, hrest, rfl⟩
    rcases List.mem_cons.mp hb with rfl | hb
    · exact ⟨x, List.mem_cons_self x rest, hx⟩
    · rcases ih bs hrest b hb with ⟨a, ha, hab⟩
      exact ⟨a, List.mem_cons_of_mem x ha, hab⟩

/-- `eMapM` fails whenever `f` fails on any element of the list. -/
theorem eMapM_error_of_mem {α β : Type} (f : α → Except PyErr β)
    (l : List α) (a : α) (ha : a ∈ l) (hfail : ∀ b, f a ≠ .ok b) :
    ∃ e, eMapM f l = .error e := by
  induction l with
  | nil => cases ha
  | cons x rest ih =>
    rcases List.mem_cons.mp ha with rfl | ha
    · cases hx : f a with
      | error e =>
        refine ⟨e, ?_⟩
        unfold eMapM
        rw [hx, errBind]
      | ok b => exact absurd hx (hfail b)
    · cases hx : f x with
      | error e =>
        refine ⟨e, ?_⟩
        unfold eMapM
        rw [hx, errBind]
      | ok b =>
        rcases ih ha with ⟨e, he⟩
        refine ⟨e, ?_⟩
        unfold eMapM
        rw [hx, okBind, he, errBind]

/-! ## Record lookup lemmas -/

/-- `hasKey` is lookup success. -/
theorem hasKey_eq_false_iff (p : Record) (k : String) :
    hasKey p k = false ↔ recLookup p k = none := by
  induction p with
  | nil => simp [hasKey, recLookup]
  | cons q rest ih =>
    obtain ⟨k0, v0⟩ := q
    by_cases hk : k0 = k
    · simp [hasKey, recLookup, hk]
    · simp [hasKey, recLookup, hk] at ih ⊢
      exact ih

/-- A present binding survives appending. -/
theorem recLookup_append_some (p q : Record) (k : String) (v : Value)
    (h : recLookup p k = some v) : recLookup (p ++ q) k = some v := by
  induction p with
  | nil => cases h
  | cons e rest ih =>
    obtain ⟨k0, v0⟩ := e
    by_cases hk : k0 = k <;> simp [recLookup, hk] at h ⊢ <;> simp_all

/-- Appending a binding for an absent key makes it found. -/
theorem recLookup_append_new (p : Record) (k : String) (v : Value)
    (h : recLookup p k = none) : recLookup (p ++ [(k, v)]) k = some v := by
  induction p with
  | nil => simp [recLookup]
  | cons e rest ih =>
    obtain ⟨k0, v0⟩ := e
    by_cases hk : k0 = k <;> simp [recLookup, hk] at h ⊢
    exact ih h

/-- Appending a binding for another key keeps `k` absent. -/
theorem recLookup_append_other (p : Record) (k k2 : String) (v : Value)
    (hk : k2 ≠ k) (h : recLookup p k = none) :
    recLookup (p ++ [(k2, v)]) k = none := by
  induction p with
  | nil => simp [recLookup, hk]
  | cons e rest ih =>
    obtain ⟨k0, v0⟩ := e
    by_cases hk0 : k0 = k <;> simp [recLookup, hk0] at h ⊢
    exact ih h

/-- Rewriting values in place resolves the rewritten key to the new
value when it is present. -/
theorem recLookup_map_set (p : Record) (k : String) (v : Value)
    (h : hasKey p k = true) :
    recLookup (p.map (fun q => (q.1, if q.1 = k then v else q.2))) k = some v := by
  induction p with
  | nil => simp [hasKey] at h
  | cons e rest ih =>
    obtain ⟨k0, v0⟩ := e
    simp only [List.map_cons, recLookup]
    by_cases hk : k0 = k
    · simp [hk]
    · rw [if_neg hk]
      apply ih
      unfold hasKey at h ⊢
      simp only [List.any_cons] at h
      rcases Bool.or_eq_true_iff.mp h with h0 | h0
      · exact absurd (by simpa using h0) hk
      · exact h0

/-- Rewriting the value of one key leaves other keys' lookups alone. -/
theorem recLookup_map_other (p : Record) (k k2 : String) (v : Value)
    (hk : k ≠ k2) :
    recLookup (p.map (fun q => (q.1, if q.1 = k2 then v else q.2))) k =
      recLookup p k := by
  induction p with
  | nil => rfl
  | cons e rest ih =>
    obtain ⟨k0, v0⟩ := e
    simp only [List.map_cons, recLookup]
    by_cases hk0 : k0 = k
    · rw [if_pos hk0, if_pos hk0, if_neg (by rw [hk0]; exact hk)]
    · rw [if_neg hk0, if_neg hk0]
      exact ih

/-- `recordSet` rewrites the looked-up value of a present key. -/
theorem recLookup_recordSet_self (p : Record) (k : String) (v : Value)
    (h : hasKey p k = true) : recLookup (recordSet p k v) k = some v := by
  unfold recordSet
  rw [if_pos h]
  exact recLookup_map_set p k v h

/-- `recordSet` leaves other keys' lookups unchanged. -/
theorem recLookup_recordSet_other (p : Record) (k k2 : String) (v : Value)
    (hk : k ≠ k2) : recLookup (recordSet p k2 v) k = recLookup p k := by
  unfold recordSet
  by_cases hp : hasKey p k2 = true
  · rw [if_pos hp]
    exact recLookup_map_other p k k2 v hk
  · rw [if_neg hp]
    cases hl : recLookup p k with
    | none => exact recLookup_append_other p k k2 v (fun h2 => hk h2.symm) hl
    | some v2 => exact recLookup_append_some p [(k2, v)] k v2 hl

/-- Every original binding of a record survives default filling
(`fillDefaults` only ever appends fresh keys). -/
theorem mem_fillDefaults (defaults pkg : Record) (q : String × Value)
    (h : q ∈ pkg) : q ∈ fillDefaults defaults pkg := by
  unfold fillDefaults
  suffices hgen : ∀ (l : List String) (p : Record), q ∈ p →
      q ∈ l.foldl (fun p k =>
        if hasKey p k = false then
          match recLookup defaults k with
          | some v => p ++ [(k, v)]
          | none => p
        else p) p by
    exact hgen reqKeys pkg h
  intro l
  induction l with
  | nil => intro p hp; exact hp
  | cons k rest ih =>
    intro p hp
    simp only [List.foldl_cons]
    apply ih
    by_cases hk : hasKey p k = false
    · rw [if_pos hk]
      cases recLookup defaults k with
      | none => exact hp
      | some v => exact List.mem_append_left _ hp
    · rw [if_neg hk]
      exact hp

/-! ## C4 — invalid keys reject the document (non-merger groups) -/

/-- `item` succeeds exactly on present keys. -/
theorem item_ok_iff (r : Record) (k : String) (v : Value) :
    item r k = .ok v ↔ recLookup r k = some v := by
  unfold item
  cases recLookup r k <;> simp

/-- A validation loop that succeeded saw only schema keys. -/
theorem validateKeys_ok_valid (p0 : Record) (ks : List String) (r : Record)
    (h : validateKeys p0 ks = .ok r) : ∀ k ∈ ks, k ∈ reqKeys ∨ k ∈ optKeys := by
  induction ks generalizing p0 r with
  | nil => intro k hk; cases hk
  | cons k0 ks ih =>
    intro k hk
    unfold validateKeys at h
    by_cases hv : k0 ∉ reqKeys ∧ k0 ∉ optKeys
    · rw [if_pos hv] at h
      cases h
    · rw [if_neg hv] at h
      have hk0 : k0 ∈ reqKeys ∨ k0 ∈ optKeys := by
        rcases not_and_or.mp hv with h1 | h1
        · exact Or.inl (not_not.mp h1)
        · exact Or.inr (not_not.mp h1)
      rcases List.mem_cons.mp hk with rfl | hk
      · exact hk0
      · cases hitem : item p0 k0 with
        | error e =>
          rw [hitem, errBind] at h
          cases h
        | ok v =>
          rw [hitem, okBind] at h
          cases hsub : substOne p0 v with
          | error e =>
            rw [hsub, errBind] at h
            cases h
          | ok v2 =>
            rw [hsub, okBind] at h
            exact ih (recordSet p0 k0 v2) r h k hk

/-- A record carrying a key outside the schema never parses. -/
theorem processRecord_invalid_fails (defaults pkg : Record) (kv : String × Value)
    (hkv : kv ∈ pkg) (hreq : kv.1 ∉ reqKeys) (hopt : kv.1 ∉ optKeys) :
    ∀ r, processRecord defaults pkg ≠ .ok r := by
  intro r h
  unfold processRecord at h
  have hmem : kv.1 ∈ (fillDefaults defaults pkg).map (fun p => p.1) :=
    List.mem_map.mpr ⟨kv, mem_fillDefaults defaults pkg kv hkv, rfl⟩
  rcases validateKeys_ok_valid (fillDefaults defaults pkg) _ r h kv.1 hmem with
    hbad | hbad
  · exact hreq hbad
  · exact hopt hbad

/-- A non-merger group holding such a record never parses. -/
theorem parseGroup_invalid_fails (cg : String × ConfGroup) (pkg : Record)
    (kv : String × Value) (hpkg : pkg ∈ cg.2.repositories) (hkv : kv ∈ pkg)
    (htype : recLookup cg.2.default "type" ≠ some (.str "merger"))
    (hreq : kv.1 ∉ reqKeys) (hopt : kv.1 ∉ optKeys) :
    ∀ r, parseGroup cg ≠ .ok r := by
  intro r h
  unfold parseGroup at h
  cases hitem : item cg.2.default "type" with
  | error e =>
    rw [hitem, errBind] at h
    cases h
  | ok tv =>
    rw [hitem, okBind] at h
    have htv : ¬tv = .str "merger" := by
      intro he
      exact htype (he ▸ (item_ok_iff _ _ _).mp hitem)
    rw [if_neg htv] at h
    cases hmap : eMapM (processRecord cg.2.default) cg.2.repositories with
    | error e =>
      rw [hmap, errBind] at h
      cases h
    | ok rps =>
      rcases eMapM_ok_forall_mem _ _ _ hmap pkg hpkg with ⟨r2, hr2, _⟩
      exact processRecord_invalid_fails cg.2.default pkg kv hkv hreq hopt r2 hr2

/-- C4 (amended): a key outside `mdata_req_keys ∪ mdata_opt_keys` on any
record of any *non-merger* group makes `parse_metadata` reject the whole
document with an error — one invalid record aborts everything, nothing
is skipped.  (Records of merger-typed groups are exempt: the loop
`continue`s past those groups, see the counterexample.)  The rejection
is the `ValueError("Invalid key present", …)` raise unless an earlier
record or group raises first. -/
theorem invalid_key_rejects_document (doc : Doc) (cg : String × ConfGroup)
    (pkg : Record) (kv : String × Value) (hcg : cg ∈ doc)
    (hpkg : pkg ∈ cg.2.repositories) (hkv : kv ∈ pkg)
    (htype : recLookup cg.2.default "type" ≠ some (.str "merger"))
    (hreq : kv.1 ∉ reqKeys) (hopt : kv.1 ∉ optKeys) :
    ∃ e, parseMetadata doc = .error e :=
  eMapM_error_of_mem parseGroup doc cg hcg
    (parseGroup_invalid_fails cg pkg kv hpkg hkv htype hreq hopt)

/-- Witness for C4 at a concrete one-group document whose stable-typed
record carries the invalid key `bogus`. -/
theorem invalid_key_rejects_document_witness :
    ∃ e, parseMetadata exDocBogusStable = .error e :=
  invalid_key_rejects_document exDocBogusStable
    ("g", ⟨[("type", .str "stable")], [[("bogus", .str "x")]]⟩)
    [("bogus", .str "x")] ("bogus", .str "x")
    (by decide) (by decide) (by decide) (by decide) (by decide) (by decide)

/-- Counterexample to C4 as stated: the same invalid key inside a
*merger*-typed group does not reject the document — `parse_metadata`
skips merger groups before any validation, so the document parses
unchanged. -/
theorem invalid_key_merger_group_counterexample :
    parseMetadata exDocMergerBogus = .ok exDocMergerBogus ∧
      "bogus" ∉ reqKeys ∧ "bogus" ∉ optKeys :=
  ⟨rfl, by decide, by decide⟩

/-! ## C5 — default inheritance -/

/-- The default-merge fold preserves bindings it has already resolved. -/
theorem fillFold_preserves (defaults : Record) (k : String) (v : Value) :
    ∀ (l : List String) (p : Record), recLookup p k = some v →
      recLookup (l.foldl (fun p k2 =>
        if hasKey p k2 = false then
          match recLookup defaults k2 with
          | some w => p ++ [(k2, w)]
          | none => p
        else p) p) k = some v := by
  intro l
  induction l with
  | nil => intro p hp; exact hp
  | cons k2 rest ih =>
    intro p hp
    simp only [List.foldl_cons]
    apply ih
    by_cases hk2 : hasKey p k2 = false
    · rw [if_pos hk2]
      cases recLookup defaults k2 with
      | none => exact hp
      | some w => exact recLookup_append_some p [(k2, w)] k v hp
    · rw [if_neg hk2]
      exact hp

/-- A required key absent from the record but present in the group
default is resolved to the default's value by the merge fold. -/
theorem fillFold_fills (defaults : Record) (k : String) (v : Value)
    (hdef : recLookup defaults k = some v) :
    ∀ (l : List String) (p : Record), k ∈ l → recLookup p k = none →
      recLookup (l.foldl (fun p k2 =>
        if hasKey p k2 = false then
          match recLookup defaults k2 with
          | some w => p ++ [(k2, w)]
          | none => p
        else p) p) k = some v := by
  intro l
  induction l with
  | nil => intro p hk hp; cases hk
  | cons k2 rest ih =>
    intro p hk hp
    simp only [List.foldl_cons]
    by_cases hkk : k2 = k
    · subst hkk
      rw [if_pos (by rw [hasKey_eq_false_iff]; exact hp), hdef]
      exact fillFold_preserves defaults k2 v rest _
        (recLookup_append_new p k2 v hp)
    · have hk2 : k ∈ rest := by
        rcases List.mem_cons.mp hk with rfl | hmem
        · exact absurd rfl hkk
        · exact hmem
      apply ih _ hk2
      by_cases hhas : hasKey p k2 = false
      · rw [if_pos hhas]
        cases recLookup defaults k2 with
        | none => exact hp
        | some w => exact recLookup_append_other p k k2 w hkk hp
      · rw [if_neg hhas]
        exact hp

/-- A key of a record resolves to the value of one of its bindings. -/
theorem recLookup_of_mem_fst (p : Record) (k : String)
    (hk : k ∈ p.map (fun q => q.1)) :
    ∃ v, recLookup p k = some v ∧ (k, v) ∈ p := by
  induction p with
  | nil => cases hk
  | cons e rest ih =>
    obtain ⟨k0, v0⟩ := e
    by_cases hk0 : k0 = k
    · subst hk0
      exact ⟨v0, by simp [recLookup], List.mem_cons_self _ _⟩
    · rcases List.mem_cons.mp hk with h0 | h0
      · exact absurd h0.symm hk0
      · rcases ih h0 with ⟨v, hv, hmem⟩
        exact ⟨v, by simp [recLookup, hk0]; exact hv, List.mem_cons_of_mem _ hmem⟩

/-- The validation loop succeeds on any record whose present keys are
all schema keys and whose values carry no `"NAME"` token — it performs
no missing-required-key check at all. -/
theorem validateKeys_ok_of_clean (ks : List String) :
    ∀ p : Record,
      (∀ k ∈ ks, (k ∈ reqKeys ∨ k ∈ optKeys) ∧
        ∃ v, recLookup p k = some v ∧ hasNameToken v = false) →
      ∃ r, validateKeys p ks = .ok r := by
  induction ks with
  | nil => intro p _; exact ⟨p, rfl⟩
  | cons k ks ih =>
    intro p hp
    obtain ⟨hvalid, v, hlook, htok⟩ := hp k (List.mem_cons_self k ks)
    unfold validateKeys
    have hcond : ¬(k ∉ reqKeys ∧ k ∉ optKeys) := by
      rcases hvalid with h | h
      · exact fun hc => hc.1 h
      · exact fun hc => hc.2 h
    rw [if_neg hcond, (item_ok_iff p k v).mpr hlook, okBind]
    have hsub : substOne p v = .ok v := by
      unfold substOne
      rw [if_neg (by rw [htok]; simp)]
    rw [hsub, okBind]
    apply ih
    intro k2 hk2
    obtain ⟨hv2, v2, hl2, ht2⟩ := hp k2 (List.mem_cons_of_mem k hk2)
    refine ⟨hv2, ?_⟩
    by_cases hkk : k2 = k
    · subst hkk
      have hhas : hasKey p k2 = true := by
        cases hb : hasKey p k2 with
        | false => rw [(hasKey_eq_false_iff p k2).mp hb] at hl2; cases hl2
        | true => rfl
      exact ⟨v, recLookup_recordSet_self p k2 v hhas, htok⟩
    · rw [recLookup_recordSet_other p k2 k v hkk]
      exact ⟨v2, hl2, ht2⟩

/-- C5 (amended): (1) a key of `mdata_req_keys` that a record lacks and
the group default carries is resolved to the default's value by the
merge pass (the subsequent `"NAME"` substitution pass may still rewrite
it, like any value); (2) the two `mdata_opt_keys` are *also* entries of
`mdata_req_keys`, so "optional" keys are defaulted exactly like required
ones; and (3) `parse_metadata` performs no missing-required-key check:
a record whose present keys are schema keys and carry no `"NAME"` token
parses successfully no matter which required keys are absent from both
the record and the default (the absence only surfaces later, as a
`KeyError` inside `load_config`). -/
theorem default_inheritance_amended :
    (∀ (defaults pkg : Record) (k : String) (v : Value), k ∈ reqKeys →
      recLookup pkg k = none → recLookup defaults k = some v →
      recLookup (fillDefaults defaults pkg) k = some v) ∧
    (∀ k ∈ optKeys, k ∈ reqKeys) ∧
    (∀ defaults pkg : Record,
      (∀ k ∈ (fillDefaults defaults pkg).map (fun q => q.1),
        k ∈ reqKeys ∨ k ∈ optKeys) →
      (∀ q ∈ fillDefaults defaults pkg, hasNameToken q.2 = false) →
      ∃ r, processRecord defaults pkg = .ok r) := by
  refine ⟨?_, by decide, ?_⟩
  · intro defaults pkg k v hk habs hdef
    unfold fillDefaults
    exact fillFold_fills defaults k v hdef reqKeys pkg hk habs
  · intro defaults pkg hvalid hclean
    unfold processRecord
    apply validateKeys_ok_of_clean
    intro k hk
    refine ⟨hvalid k hk, ?_⟩
    rcases recLookup_of_mem_fst _ k hk with ⟨v, hv, hmem⟩
    exact ⟨v, hv, hclean (k, v) hmem⟩

/-- Witness for C5's amended statement: `packaging_url` is filled from
the default, the "optional" `upstream_url` is filled the same way, and a
record missing almost every required key still parses. -/
theorem default_inheritance_amended_witness :
    recLookup (fillDefaults
        [("type", .str "stable"), ("packaging_url", .str "purl"),
         ("upstream_url", .str "uurl")]
        [("name", .str "foo")]) "packaging_url" = some (.str "purl") ∧
      recLookup (fillDefaults
        [("type", .str "stable"), ("packaging_url", .str "purl"),
         ("upstream_url", .str "uurl")]
        [("name", .str "foo")]) "upstream_url" = some (.str "uurl") ∧
      ∃ r, processRecord [] [("name", .str "foo")] = .ok r :=
  ⟨default_inheritance_amended.1 _ _ "packaging_url" (.str "purl")
      (by decide) (by decide) (by decide),
    default_inheritance_amended.1 _ _ "upstream_url" (.str "uurl")
      (default_inheritance_amended.2.1 "upstream_url" (by decide))
      (by decide) (by decide),
    default_inheritance_amended.2.2 [] [("name", .str "foo")]
      (by decide) (by decide)⟩

/-- Counterexample to C5 as stated: a record missing `packaging_url`
(and more) from both the record and its group default does *not* raise a
validation error — the document parses, gaining only the defaulted
`type` key. -/
theorem missing_required_key_accepted_counterexample :
    parseMetadata exDocMissingReq =
      .ok [("grp", ⟨[("type", .str "stable")],
        [[("name", .str "foo"), ("type", .str "stable")]]⟩)] ∧
      recLookup [("name", Value.str "foo")] "packaging_url" = none ∧
      recLookup [("type", Value.str "stable")] "packaging_url" = none ∧
      "packaging_url" ∈ reqKeys :=
  ⟨rfl, rfl, rfl, by decide⟩

/-! ## C7 — merger job content and push-target writability -/

/-- C7 (amended): `load_config("merger", data)` contains no policy check
of any kind on the packaging URL — for *every* record it accepts,
including any whose push target is a read-only mirror, the produced job
content is the rendered cascade script for the record's `cascade` list;
no no-op placeholder exists anywhere in the generator. -/
theorem merger_content_always_cascade (d : Record) (c : JobContent)
    (h : loadConfig "merger" (some d) = .ok c) :
    ∃ url cascadeV nameV,
      recLookup d "packaging_url" = some url ∧
      recLookup d "cascade" = some cascadeV ∧
      c = .merger url (mergerCascade (pyIterList cascadeV)) nameV := by
  unfold loadConfig at h
  dsimp only [] at h
  cases hurl : item d "packaging_url" with
  | error e => rw [hurl, errBind] at h; cases h
  | ok url =>
    rw [hurl, okBind] at h
    cases hbr : item d "packaging_branch" with
    | error e => rw [hbr, errBind] at h; cases h
    | ok branch =>
      rw [hbr, okBind] at h
      cases hup : item d "upload_target" with
      | error e => rw [hup, errBind] at h; cases h
      | ok uploadTarget =>
        rw [hup, okBind] at h
        rw [if_neg (by decide : ¬strStartsWith "merger" "package" = true),
          if_pos (rfl : ("merger" : String) = "merger")] at h
        cases hcas : item d "cascade" with
        | error e => rw [hcas, errBind] at h; cases h
        | ok cascadeV =>
          rw [hcas, okBind] at h
          cases hname : item d "name" with
          | error e => rw [hname, errBind] at h; cases h
          | ok nameV =>
            rw [hname, okBind] at h
            refine ⟨url, cascadeV, nameV, (item_ok_iff _ _ _).mp hurl,
              (item_ok_iff _ _ _).mp hcas, ?_⟩
            injection h with h2
            exact h2.symm

/-- Witness for C7's amended statement at the read-only-mirror record. -/
theorem merger_content_always_cascade_witness :
    ∃ url cascadeV nameV,
      recLookup exRecReadOnly "packaging_url" = some url ∧
      recLookup exRecReadOnly "cascade" = some cascadeV ∧
      JobContent.merger (.str "https://mirror.example/read-only/foo.git")
          (mergerCascade ["main", "ubuntu"]) (.str "foo") =
        .merger url (mergerCascade (pyIterList cascadeV)) nameV :=
  merger_content_always_cascade exRecReadOnly
    (.merger (.str "https://mirror.example/read-only/foo.git")
      (mergerCascade ["main", "ubuntu"]) (.str "foo")) rfl

/-- Counterexample to C7 as stated: a merger record whose packaging URL
is a read-only mirror (a push target without write capability) still
gets the generated cascade script as its job content — including the
actual fast-forward merge and push commands — not a no-op placeholder. -/
theorem merger_readonly_counterexample :
    loadConfig "merger" (some exRecReadOnly) =
      .ok (.merger (.str "https://mirror.example/read-only/foo.git")
        (mergerCascade ["main", "ubuntu"]) (.str "foo")) ∧
      strContains (mergerCascade ["main", "ubuntu"]) "git merge --ff-only main" = true ∧
      strContains (mergerCascade ["main", "ubuntu"])
        "git push --set-upstream origin ubuntu" = true :=
  ⟨rfl, by decide, by decide⟩

/-! ## C1 — package job identities -/

/-- Inverting one release iteration of the package loop. -/
theorem packageReleaseStep_ok (jobType cname : String) (pkg : Record)
    (r : String) (j : JobReq)
    (h : packageReleaseStep jobType cname pkg r = .ok j) :
    ∃ nv, recLookup pkg "name" = some nv ∧
      j.name = r ++ "_" ++ cname ++ "_" ++ pyFormat nv ∧
      j.view = r ++ " " ++ jobType := by
  unfold packageReleaseStep at h
  dsimp only [] at h
  cases hc : loadConfig ("package-" ++ jobType)
      (some (recordSet pkg "release" (.str r))) with
  | error e => rw [hc, errBind] at h; cases h
  | ok content =>
    rw [hc, okBind] at h
    cases hn : item (recordSet pkg "release" (.str r)) "name" with
    | error e => rw [hn, errBind] at h; cases h
    | ok nv =>
      rw [hn, okBind] at h
      cases h
      refine ⟨nv, ?_, rfl, rfl⟩
      rw [← recLookup_recordSet_other pkg "name" "release" (.str r) (by decide)]
      exact (item_ok_iff _ _ _).mp hn

/-- Inverting one repository of the package loop. -/
theorem packageRecordJobs_ok (jobType cname : String) (pkg : Record)
    (jobs : List JobReq) (rels : List String)
    (h : packageRecordJobs jobType cname pkg = .ok (jobs, rels)) :
    ∃ rv, recLookup pkg "releases" = some rv ∧ rels = pyIterList rv ∧
      eMapM (packageReleaseStep jobType cname pkg) (pyIterList rv) = .ok jobs := by
  unfold packageRecordJobs at h
  cases hrv : item pkg "releases" with
  | error e => rw [hrv, errBind] at h; cases h
  | ok rv =>
    rw [hrv, okBind] at h
    dsimp only [] at h
    cases hjobs : eMapM (packageReleaseStep jobType cname pkg) (pyIterList rv) with
    | error e => rw [hjobs, errBind] at h; cases h
    | ok js =>
      rw [hjobs, okBind] at h
      injection h with h2
      injection h2 with h3 h4
      exact ⟨rv, (item_ok_iff _ _ _).mp hrv, h4.symm, h3 ▸ hjobs⟩

/-- Inverting one config group of the package loop. -/
theorem packageConfigJobs_ok (jobType : String) (cg : String × ConfGroup)
    (jobs : List JobReq) (rels : List String)
    (h : packageConfigJobs jobType cg = .ok (jobs, rels)) :
    ∃ results,
      eMapM (packageRecordJobs jobType cg.1) cg.2.repositories = .ok results ∧
      jobs = (results.map (fun p => p.1)).flatten ∧
      rels = (results.map (fun p => p.2)).flatten := by
  unfold packageConfigJobs at h
  cases hres : eMapM (packageRecordJobs jobType cg.1) cg.2.repositories with
  | error e => rw [hres, errBind] at h; cases h
  | ok results =>
    rw [hres, okBind] at h
    injection h with h2
    injection h2 with h3 h4
    exact ⟨results, rfl, h3.symm, h4.symm⟩

/-- Inverting the whole package stage. -/
theorem derivePackageJobs_ok (doc : Doc) (jobs : List JobReq) (R : List String)
    (h : derivePackageJobs doc = .ok (jobs, R)) :
    ∃ st un, eMapM (packageConfigJobs "stable") (bucket doc "stable") = .ok st ∧
      eMapM (packageConfigJobs "unstable") (bucket doc "unstable") = .ok un ∧
      jobs = ((st ++ un).map (fun p => p.1)).flatten ∧
      R = (((st ++ un).map (fun p => p.2)).flatten).foldl pySetAdd [] := by
  unfold derivePackageJobs at h
  cases hst : eMapM (packageConfigJobs "stable") (bucket doc "stable") with
  | error e => rw [hst, errBind] at h; cases h
  | ok st =>
    rw [hst, okBind] at h
    cases hun : eMapM (packageConfigJobs "unstable") (bucket doc "unstable") with
    | error e => rw [hun, errBind] at h; cases h
    | ok un =>
      rw [hun, okBind] at h
      dsimp only [] at h
      injection h with h2
      injection h2 with h3 h4
      exact ⟨st, un, rfl, rfl, h3.symm, h4.symm⟩

/-- C1 (amended): every package job the run derives is named
`{release}_{configGroupName}_{packageName}` — the middle component is
the *name of the config group* (the `.conf` file name), not the
`stable`/`unstable` job type; it coincides with the claimed
`{release}_{jobtype}_{packageName}` exactly when the group is named
after its type, as in the witness (group named `stable`), and differs
otherwise (see the counterexample).  The view is
`{release} {jobtype}`. -/
theorem package_job_identity (doc : Doc) (jobs : List JobReq)
    (R : List String) (h : derivePackageJobs doc = .ok (jobs, R))
    (j : JobReq) (hj : j ∈ jobs) :
    ∃ jobType cname g pkg rv r nv,
      (jobType = "stable" ∨ jobType = "unstable") ∧
      (cname, g) ∈ bucket doc jobType ∧ pkg ∈ g.repositories ∧
      recLookup pkg "releases" = some rv ∧ r ∈ pyIterList rv ∧
      recLookup pkg "name" = some nv ∧
      j.name = r ++ "_" ++ cname ++ "_" ++ pyFormat nv ∧
      j.view = r ++ " " ++ jobType := by
  rcases derivePackageJobs_ok doc jobs R h with ⟨st, un, hst, hun, hjobs, _⟩
  subst hjobs
  rcases List.mem_flatten.mp hj with ⟨jl, hjl, hjin⟩
  rcases List.mem_map.mp hjl with ⟨pair, hpair, rfl⟩
  have hcase : ∃ jobType, (jobType = "stable" ∨ jobType = "unstable") ∧
      ∃ cg, (cg ∈ bucket doc jobType) ∧
        packageConfigJobs jobType cg = .ok pair := by
    rcases List.mem_append.mp hpair with hmem | hmem
    · rcases eMapM_ok_mem _ _ _ hst pair hmem with ⟨cg, hcg, hok⟩
      exact ⟨"stable", Or.inl rfl, cg, hcg, hok⟩
    · rcases eMapM_ok_mem _ _ _ hun pair hmem with ⟨cg, hcg, hok⟩
      exact ⟨"unstable", Or.inr rfl, cg, hcg, hok⟩
  rcases hcase with ⟨jobType, hjt, cg, hcg, hok⟩
  rcases packageConfigJobs_ok jobType cg pair.1 pair.2 hok with
    ⟨results, hres, hj1, _⟩
  rw [hj1] at hjin
  rcases List.mem_flatten.mp hjin with ⟨jl2, hjl2, hjin2⟩
  rcases List.mem_map.mp hjl2 with ⟨rp, hrp, rfl⟩
  rcases eMapM_ok_mem _ _ _ hres rp hrp with ⟨pkg, hpkg, hpok⟩
  rcases packageRecordJobs_ok jobType cg.1 pkg rp.1 rp.2 hpok with
    ⟨rv, hrv, _, hsteps⟩
  rcases eMapM_ok_mem _ _ _ hsteps j hjin2 with ⟨r, hr, hstepok⟩
  rcases packageReleaseStep_ok jobType cg.1 pkg r j hstepok with
    ⟨nv, hnv, hname, hview⟩
  exact ⟨jobType, cg.1, cg.2, pkg, rv, r, nv, hjt, hcg, hpkg, hrv, hr, hnv,
    hname, hview⟩

/-- Witness for C1's amended statement on `exDocStable`, whose group is
named `stable`: the derived identity is `bionic_stable_foo`, matching
the claim's example because group name and job type coincide. -/
theorem package_job_identity_witness :
    ∃ jobType cname g pkg rv r nv,
      (jobType = "stable" ∨ jobType = "unstable") ∧
      (cname, g) ∈ bucket exDocStable jobType ∧ pkg ∈ g.repositories ∧
      recLookup pkg "releases" = some rv ∧ r ∈ pyIterList rv ∧
      recLookup pkg "name" = some nv ∧
      "bionic_stable_foo" = r ++ "_" ++ cname ++ "_" ++ pyFormat nv ∧
      "bionic stable" = r ++ " " ++ jobType := by
  have h := package_job_identity exDocStable
    [⟨"bionic_stable_foo",
      .package (.str "u") (.str "b") (.str "uu") (.str "foo") (.str "bionic")
        (.str "t"), "bionic stable"⟩]
    ["bionic"] (by rfl)
    ⟨"bionic_stable_foo",
      .package (.str "u") (.str "b") (.str "uu") (.str "foo") (.str "bionic")
        (.str "t"), "bionic stable"⟩
    (List.mem_cons_self _ _)
  exact h

/-- Counterexample to C1 as stated: the same repository under a
stable-typed group *named* `grp` yields the identity `bionic_grp_foo`,
not `bionic_stable_foo` — the identity's middle component is the group
name, not the job type. -/
theorem package_job_identity_counterexample :
    derivePackageJobs exDocGrp =
      .ok ([⟨"bionic_grp_foo",
        .package (.str "u") (.str "b") (.str "uu") (.str "foo") (.str "bionic")
          (.str "t"), "bionic stable"⟩], ["bionic"]) ∧
      "bionic_grp_foo" ≠ "bionic_stable_foo" :=
  ⟨rfl, by decide⟩

/-! ## C6 — management jobs -/

/-- `total_rel` stays duplicate-free: Python-set addition never inserts
an element twice. -/
theorem pySetAdd_fold_nodup :
    ∀ (l s : List String), s.Nodup → (l.foldl pySetAdd s).Nodup := by
  intro l
  induction l with
  | nil => intro s hs; exact hs
  | cons x l ih =>
    intro s hs
    apply ih
    unfold pySetAdd
    by_cases hx : x ∈ s
    · rw [if_pos hx]; exact hs
    · rw [if_neg hx]
      rw [List.nodup_append]
      refine ⟨hs, List.nodup_singleton x, ?_⟩
      intro a ha hax
      rw [List.mem_singleton.mp hax] at ha
      exact hx ha

/-- Membership in a Python set built by repeated addition. -/
theorem mem_pySetAdd_fold :
    ∀ (l s : List String) (r : String),
      r ∈ l.foldl pySetAdd s ↔ r ∈ s ∨ r ∈ l := by
  intro l
  induction l with
  | nil => intro s r; simp
  | cons x l ih =>
    intro s r
    simp only [List.foldl_cons]
    rw [ih]
    have hadd : r ∈ pySetAdd s x ↔ r ∈ s ∨ r = x := by
      unfold pySetAdd
      by_cases hx : x ∈ s
      · rw [if_pos hx]
        constructor
        · exact Or.inl
        · rintro (hr | rfl)
          · exact hr
          · exact hx
      · rw [if_neg hx]
        simp
    rw [hadd, List.mem_cons]
    tauto

/-- The releases the record loop contributes are exactly the records'
`releases` values, in order. -/
theorem eMapM_records_rels (jobType cname : String) :
    ∀ (reps : List Record) (results : List (List JobReq × List String)),
      eMapM (packageRecordJobs jobType cname) reps = .ok results →
      (results.map (fun p => p.2)).flatten =
        reps.flatMap (fun pkg =>
          match recLookup pkg "releases" with
          | some rv => pyIterList rv
          | none => []) := by
  intro reps
  induction reps with
  | nil => intro results h; cases h; rfl
  | cons pkg reps ih =>
    intro results h
    rcases eMapM_cons_ok _ _ _ _ h with ⟨rp, rest, hrp, hrest, rfl⟩
    rcases packageRecordJobs_ok jobType cname pkg rp.1 rp.2 hrp with
      ⟨rv, hrv, hrels, _⟩
    simp only [List.map_cons, List.flatten_cons, List.flatMap_cons]
    rw [ih rest hrest, hrv, hrels]

/-- The releases the config loop contributes are exactly its groups'
records' `releases` values, in order. -/
theorem eMapM_configs_rels (jobType : String) :
    ∀ (cgs : Doc) (parts : List (List JobReq × List String)),
      eMapM (packageConfigJobs jobType) cgs = .ok parts →
      (parts.map (fun p => p.2)).flatten =
        cgs.flatMap (fun cg => cg.2.repositories.flatMap (fun pkg =>
          match recLookup pkg "releases" with
          | some rv => pyIterList rv
          | none => [])) := by
  intro cgs
  induction cgs with
  | nil => intro parts h; cases h; rfl
  | cons cg cgs ih =>
    intro parts h
    rcases eMapM_cons_ok _ _ _ _ h with ⟨pair, rest, hpair, hrest, rfl⟩
    rcases packageConfigJobs_ok jobType cg pair.1 pair.2 hpair with
      ⟨results, hres, _, hrels⟩
    simp only [List.map_cons, List.flatten_cons, List.flatMap_cons]
    rw [ih rest hrest, hrels, eMapM_records_rels jobType cg.1 _ _ hres]

/-- `total_rel` at the end of a successful package stage is the
deduplication of exactly the releases mentioned across the stable and
unstable groups. -/
theorem totalRel_eq (doc : Doc) (jobs : List JobReq) (R : List String)
    (h : derivePackageJobs doc = .ok (jobs, R)) :
    R = (allReleases doc).foldl pySetAdd [] := by
  rcases derivePackageJobs_ok doc jobs R h with ⟨st, un, hst, hun, _, hR⟩
  rw [hR]
  congr 1
  rw [List.map_append, List.flatten_append,
    eMapM_configs_rels "stable" _ st hst, eMapM_configs_rels "unstable" _ un hun]
  unfold allReleases
  rw [List.flatMap_append]

/-- The double loop over releases and job types emits two jobs per
release. -/
theorem mgmt_flatMap_length (L : List String) (c : JobContent) :
    (L.flatMap (fun r => ["stable", "unstable"].map
      (fun t => (⟨"mgmt_build_" ++ r ++ "_" ++ t, c, "mgmt"⟩ : JobReq)))).length =
      2 * L.length := by
  induction L with
  | nil => rfl
  | cons r L ih =>
    simp only [List.flatMap_cons, List.length_append, List.length_map,
      List.length_cons, List.length_nil, ih]
    omega

/-- A `mgmt_build_…` name is never the aggregate identity `merger`. -/
theorem mgmt_build_name_ne_merger (r t : String) (ht : t.length ≥ 6) :
    ¬"mgmt_build_" ++ r ++ "_" ++ t = "merger" := by
  intro heq
  have hlen := congrArg String.length heq
  rw [String.length_append, String.length_append, String.length_append] at hlen
  have h1 : ("mgmt_build_" : String).length = 11 := rfl
  have h2 : ("_" : String).length = 1 := rfl
  have h3 : ("merger" : String).length = 6 := rfl
  rw [h1, h2, h3] at hlen
  omega

/-- C6: at the end of a run whose package stage succeeded with release
set `R`, the management stage — fed the rendered `release-mgmt` content
— emits exactly `2·|R|` release-management jobs plus the single
aggregate `merger` job: `R` is duplicate-free and holds exactly the
releases mentioned across stable/unstable repositories, every emitted
job goes to the `mgmt` view, every non-aggregate name is
`mgmt_build_{release}_{jobtype}` for a release of `R`, and exactly one
emitted job has the identity `merger`. -/
theorem mgmt_jobs_complete (doc : Doc) (jobs : List JobReq) (R : List String)
    (h : derivePackageJobs doc = .ok (jobs, R)) :
    loadConfig "release-mgmt" none = .ok JobContent.mgmt ∧
    R.Nodup ∧
    (∀ r, r ∈ R ↔ r ∈ allReleases doc) ∧
    (mgmtJobs R JobContent.mgmt).length = 2 * R.length + 1 ∧
    (mgmtJobs R JobContent.mgmt).countP (fun j => j.name = "merger") = 1 ∧
    (∀ j ∈ mgmtJobs R JobContent.mgmt, j.view = "mgmt" ∧
      (j.name = "merger" ∨ ∃ r ∈ R,
        j.name = "mgmt_build_" ++ r ++ "_stable" ∨
        j.name = "mgmt_build_" ++ r ++ "_unstable")) := by
  have hReq := totalRel_eq doc jobs R h
  refine ⟨rfl, ?_, ?_, ?_, ?_, ?_⟩
  · rw [hReq]
    exact pySetAdd_fold_nodup (allReleases doc) [] List.nodup_nil
  · intro r
    rw [hReq, mem_pySetAdd_fold]
    simp
  · unfold mgmtJobs
    rw [List.length_append, mgmt_flatMap_length]
    rfl
  · unfold mgmtJobs
    rw [List.countP_append]
    have hzero : (R.flatMap (fun r => ["stable", "unstable"].map
        (fun t => (⟨"mgmt_build_" ++ r ++ "_" ++ t, JobContent.mgmt, "mgmt"⟩ : JobReq)))).countP
        (fun j => j.name = "merger") = 0 := by
      rw [List.countP_eq_zero]
      intro j hj
      rcases List.mem_flatMap.mp hj with ⟨r, _, hj2⟩
      simp only [List.map_cons, List.map_nil, List.mem_cons,
        List.not_mem_nil, or_false] at hj2
      rcases hj2 with rfl | rfl
      · simpa using mgmt_build_name_ne_merger r "stable" (by decide)
      · simpa using mgmt_build_name_ne_merger r "unstable" (by decide)
    rw [hzero]
    simp [List.countP_cons]
  · intro j hj
    unfold mgmtJobs at hj
    rcases List.mem_append.mp hj with hj | hj
    · rcases List.mem_flatMap.mp hj with ⟨r, hr, hj2⟩
      simp only [List.map_cons, List.map_nil, List.mem_cons,
        List.not_mem_nil, or_false] at hj2
      have hs : ∀ X : String, X ++ "_" ++ "stable" = X ++ "_stable" :=
        fun X => by rw [String.append_assoc]; rfl
      have hu : ∀ X : String, X ++ "_" ++ "unstable" = X ++ "_unstable" :=
        fun X => by rw [String.append_assoc]; rfl
      rcases hj2 with rfl | rfl
      · exact ⟨rfl, Or.inr ⟨r, hr, Or.inl (hs ("mgmt_build_" ++ r))⟩⟩
      · exact ⟨rfl, Or.inr ⟨r, hr, Or.inr (hu ("mgmt_build_" ++ r))⟩⟩
    · rw [List.mem_singleton.mp hj]
      exact ⟨rfl, Or.inl rfl⟩

/-- Witness for C6 on a document whose repository targets `bionic` and
`focal`: exactly the four `mgmt_build` jobs and one `merger` job. -/
theorem mgmt_jobs_complete_witness :
    (["bionic", "focal"] : List String).Nodup ∧
      (mgmtJobs ["bionic", "focal"] JobContent.mgmt).length = 2 * 2 + 1 ∧
      (mgmtJobs ["bionic", "focal"] JobContent.mgmt).countP
        (fun j => j.name = "merger") = 1 ∧
      (mgmtJobs ["bionic", "focal"] JobContent.mgmt).map (fun j => j.name) =
        ["mgmt_build_bionic_stable", "mgmt_build_bionic_unstable",
         "mgmt_build_focal_stable", "mgmt_build_focal_unstable", "merger"] := by
  have h := mgmt_jobs_complete exDocTwoRel
    [⟨"bionic_g_foo",
      .package (.str "u") (.str "b") (.str "uu") (.str "foo") (.str "bionic")
        (.str "t"), "bionic stable"⟩,
     ⟨"focal_g_foo",
      .package (.str "u") (.str "b") (.str "uu") (.str "foo") (.str "focal")
        (.str "t"), "focal stable"⟩]
    ["bionic", "focal"] (by rfl)
  exact ⟨h.2.1, h.2.2.2.1, h.2.2.2.2.1, rfl⟩
